import Mathlib

/-!
Verification of the checkers rules engine and minimax search of
`game_logic.py` (class `CheckersGameLogic`).

The board is the Python value `list[list[int]]` with cell codes
0 = empty, 1 = white pawn, 2 = black pawn, 3 = white king, 4 = black king.
Players are the integers 1 (white) and 2 (black).

Every definition below is a direct shallow embedding of the corresponding
Python method; bounded `for`/`while` loops become structural recursion over
explicit index lists (or a fuel argument whose bound exceeds the loop's
reachable length), and Python's `is None` defaulting of optional arguments
is kept explicit.
-/

set_option autoImplicit false

/-- A board position, `(row, col)`, as Python integers. -/
abbrev Pos := Int × Int

/-- A Python board: a list of rows, each a list of cell codes. -/
abbrev Board := List (List Nat)

/-- `0 <= r < 8 and 0 <= c < 8`: the bounds test the source repeats everywhere. -/
def inB (r c : Int) : Prop := 0 ≤ r ∧ r < 8 ∧ 0 ≤ c ∧ c < 8

instance (r c : Int) : Decidable (inB r c) := by unfold inB; infer_instance

/-- Well-formed Python board: 8 rows of 8 cells, as `_initialize_board` builds. -/
def WF8 (b : Board) : Prop := b.length = 8 ∧ ∀ row ∈ b, row.length = 8

instance (b : Board) : Decidable (WF8 b) := by unfold WF8; infer_instance

/-- `board[r][c]` at an in-range index (callers of this helper in the embedding
correspond to source sites that are guarded by, or reachable only under, the
in-range test; out of range it defaults to 0, standing for "no piece"). -/
def cell (b : Board) (r c : Int) : Nat :=
  ((b[r.toNat]?.getD [])[c.toNat]?).getD 0

/-- `board[r][c] = v` (in-range item assignment on the row list). -/
def setCell (b : Board) (r c : Int) (v : Nat) : Board :=
  b.set r.toNat ((b[r.toNat]?.getD []).set c.toNat v)

/-- `piece == 1 or piece == 3` for white, `piece == 2 or piece == 4` otherwise:
the ownership test of `is_player_piece` applied to a cell value. -/
def isOwnPiece (player piece : Nat) : Bool :=
  if player = 1 then piece = 1 || piece = 3 else piece = 2 || piece = 4

/-- The ownership test of `is_opponent_piece` applied to a cell value. -/
def isOppPiece (player piece : Nat) : Bool :=
  if player = 1 then piece = 2 || piece = 4 else piece = 1 || piece = 3

/-- `1 if current_player == 2 else 2`: the turn flip the source writes inline. -/
def flipPlayer (player : Nat) : Nat := if player = 2 then 1 else 2

/-- Python list indexing `l[i]`: an index in `[0, len)` reads directly, an index
in `[-len, 0)` wraps around to `len + i`, and anything else raises `IndexError`
(modelled as `none`). -/
def pyIdx {α : Type} (l : List α) (i : Int) : Option α :=
  if 0 ≤ i ∧ i < l.length then l[i.toNat]?
  else if -(l.length : Int) ≤ i ∧ i < 0 then l[((l.length : Int) + i).toNat]?
  else none

/-- `is_player_piece(row, col, player_type, board)`: reads `board[row][col]`
with Python indexing (so it can raise, modelled by `none`) and tests ownership
for `player_type`. -/
def is_player_piece (row col : Int) (player : Nat) (b : Board) : Option Bool :=
  (pyIdx b row).bind fun rw => (pyIdx rw col).map fun piece => isOwnPiece player piece

/-- `is_opponent_piece(row, col, player_type, board)`: as `is_player_piece`
but testing ownership by the opponent of `player_type`. -/
def is_opponent_piece (row col : Int) (player : Nat) (b : Board) : Option Bool :=
  (pyIdx b row).bind fun rw => (pyIdx rw col).map fun piece => isOppPiece player piece

/-- The diagonal ray of squares `(r + dr*i, c + dc*i)` for `i = 1..7`
scanned by the king loops (`for i in range(1, 8)`). -/
def kingRay (r c dr dc : Int) : List Pos :=
  (List.range' 1 7).map fun i => (r + dr * Int.ofNat i, c + dc * Int.ofNat i)

/-- The king capture scan of `_get_captures_for_piece` along one ray:
walks the ray with the running `opponent_found_on_path` state, collecting the
empty squares that follow the first opponent piece, and stopping at the board
edge, at an own piece, at a second opponent piece, or at an unknown cell code. -/
def scanCaptures (b : Board) (player : Nat) : Option Pos → List Pos → List Pos
  | _, [] => []
  | opp, p :: rest =>
    if inB p.1 p.2 then
      let piece := cell b p.1 p.2
      if piece = 0 then
        match opp with
        | some q => p :: scanCaptures b player (some q) rest
        | none => scanCaptures b player none rest
      else if isOwnPiece player piece then []
      else if isOppPiece player piece then
        match opp with
        | some _ => []
        | none => scanCaptures b player (some p) rest
      else []
    else []

/-- The king sliding scan of `get_possible_moves` along one ray: collects the
empty squares up to (excluding) the first blocked or out-of-range square. -/
def collectSlide (b : Board) : List Pos → List Pos
  | [] => []
  | p :: rest =>
    if inB p.1 p.2 then
      if cell b p.1 p.2 = 0 then p :: collectSlide b rest else []
    else []

/-- The pawn capture test of `_get_captures_for_piece` in one direction:
the landing square two steps away must be in range and empty and the
jumped square must hold an opponent piece. -/
def pawnCaptureDir (b : Board) (player : Nat) (r c dr dc : Int) : List Pos :=
  if inB (r + 2 * dr) (c + 2 * dc)
      ∧ isOppPiece player (cell b (r + dr) (c + dc))
      ∧ cell b (r + 2 * dr) (c + 2 * dc) = 0 then
    [(r + 2 * dr, c + 2 * dc)]
  else []

/-- `_get_captures_for_piece(r, c, board, player_type)`: capture destinations
for the piece at `(r, c)`. Pawns jump two squares over an adjacent opponent;
kings capture at a distance via `scanCaptures`; an empty cell (and any cell
code outside 1..4, for which the direction list stays empty) yields no
captures. -/
def get_captures_for_piece (r c : Int) (b : Board) (player : Nat) : List Pos :=
  let piece := cell b r c
  if piece = 0 then []
  else if piece = 1 ∨ piece = 2 then
    let fwd : Int := if piece = 1 then -1 else 1
    pawnCaptureDir b player r c fwd (-1) ++ pawnCaptureDir b player r c fwd 1
  else if piece = 3 ∨ piece = 4 then
    [((-1 : Int), (-1 : Int)), (-1, 1), (1, -1), (1, 1)].flatMap fun d =>
      scanCaptures b player none (kingRay r c d.1 d.2)
  else []

/-- The pawn forward step of `get_possible_moves` in one column direction:
the forward diagonal square, if in range and empty. -/
def pawnStepDir (b : Board) (r c direction dc : Int) : List Pos :=
  if inB (r + direction) (c + dc) ∧ cell b (r + direction) (c + dc) = 0 then
    [(r + direction, c + dc)]
  else []

/-- `get_possible_moves(r, c, board, player_type)`: capture destinations with
flag `true` when any capture exists, otherwise ordinary destinations (pawn
forward steps or king slides) with flag `false`. -/
def get_possible_moves (r c : Int) (b : Board) (player : Nat) : List Pos × Bool :=
  let captures := get_captures_for_piece r c b player
  if captures ≠ [] then (captures, true)
  else
    let piece := cell b r c
    if piece = 1 ∨ piece = 2 then
      let direction : Int := if piece = 1 then -1 else 1
      (pawnStepDir b r c direction (-1) ++ pawnStepDir b r c direction 1, false)
    else if piece = 3 ∨ piece = 4 then
      ([((-1 : Int), (-1 : Int)), (-1, 1), (1, -1), (1, 1)].flatMap fun d =>
        collectSlide b (kingRay r c d.1 d.2), false)
    else ([], false)

/-- One scan entry of `get_all_possible_moves_for_player`: the piece at `(r,c)`
contributes its `(position, destinations, has_captures)` triple when it belongs
to `player`, passes the forced-capture filter, and has at least one move. -/
def scanEntry (b : Board) (player : Nat) (eff : Option Pos) (r c : Int) :
    List (Pos × List Pos × Bool) :=
  if isOwnPiece player (cell b r c) then
    if (match eff with | some fp => decide (((r, c) : Pos) ≠ fp) | none => false) then []
    else
      let mv := get_possible_moves r c b player
      if mv.1 ≠ [] then [((r, c), mv.1, mv.2)] else []
  else []

/-- The row-major scan of `get_all_possible_moves_for_player` over
`for r in range(8): for c in range(8)`. -/
def scanEntries (b : Board) (player : Nat) (eff : Option Pos) :
    List (Pos × List Pos × Bool) :=
  (List.range 8).flatMap fun r =>
    (List.range 8).flatMap fun c => scanEntry b player eff (r : Int) (c : Int)

/-- The `all_player_captures` dictionary built by the scan of
`get_all_possible_moves_for_player`: the entries whose moves are captures. -/
def all_player_captures (b : Board) (player : Nat) (eff : Option Pos) :
    List (Pos × List Pos) :=
  ((scanEntries b player eff).filter fun e => e.2.2).map fun e => (e.1, e.2.1)

/-- The `all_player_moves` dictionary built by the same scan: the entries
whose moves are ordinary moves. -/
def all_player_moves (b : Board) (player : Nat) (eff : Option Pos) :
    List (Pos × List Pos) :=
  ((scanEntries b player eff).filter fun e => ¬ e.2.2).map fun e => (e.1, e.2.1)

/-- `get_all_possible_moves_for_player(board, player_type, forced_capture_piece)`.
`forced` is the explicit argument; a `none` argument is replaced by the live
game state's `forced_capture_piece` (`selfForced`), exactly as the
`if forced_capture_piece is None` default does. Returns the capture entries
with flag `true` when any exist, else the ordinary-move entries with a flag
recording whether that map is non-empty. -/
def get_all_possible_moves_for_player (b : Board) (player : Nat)
    (forced selfForced : Option Pos) : List (Pos × List Pos) × Bool :=
  let eff := match forced with | none => selfForced | some p => some p
  if all_player_captures b player eff ≠ [] then (all_player_captures b player eff, true)
  else (all_player_moves b player eff, all_player_moves b player eff ≠ [])

/-- `check_game_over(board, player_type, forced_capture_piece)`: the player has
no move of any kind and no pending forced capture. The `None` default again
falls back to the live `forced_capture_piece`. -/
def check_game_over (b : Board) (player : Nat) (forced selfForced : Option Pos) : Bool :=
  let eff := match forced with | none => selfForced | some p => some p
  let res := get_all_possible_moves_for_player b player eff selfForced
  !res.2 && eff.isNone

/-- The live game state fields that `make_move` reads and writes:
`self.board`, `self.current_player`, `self.forced_capture_piece`. -/
structure GameState where
  board : Board
  current_player : Nat
  forced_capture_piece : Option Pos
  deriving DecidableEq, Repr

/-- The `while True` walk of `make_move` that looks for the single opponent
piece on the jump path: steps by `(dr, dc)` from the start square, stops with
`none` on reaching the destination, leaving the board, or hitting a non-empty
cell that is not an opponent piece, and stops with that square on the first
opponent piece. The fuel argument bounds the loop; 16 steps always leave the
8-wide board when `(dr, dc) ≠ (0, 0)`. -/
def findCaptured (b : Board) (player : Nat) (er ec dr dc : Int) :
    Nat → Int → Int → Option Pos
  | 0, _, _ => none
  | fuel + 1, cr, cc =>
    let nr := cr + dr
    let nc := cc + dc
    if nr = er ∧ nc = ec then none
    else if ¬ inB nr nc then none
    else if isOppPiece player (cell b nr nc) then some (nr, nc)
    else if cell b nr nc ≠ 0 then none
    else findCaptured b player er ec dr dc fuel nr nc

/-- `dr`, the row step of `make_move`: the sign of the row displacement
(integer division by its absolute value), 0 for no displacement. -/
def moveDr (s e : Pos) : Int :=
  if |e.1 - s.1| > 0 then (e.1 - s.1) / |e.1 - s.1| else 0

/-- `dc`, the column step of `make_move`. -/
def moveDc (s e : Pos) : Int :=
  if |e.2 - s.2| > 0 then (e.2 - s.2) / |e.2 - s.2| else 0

/-- `dr_abs > 1 or dc_abs > 1`: the displacement classification of
`make_move` (a jump move, initially treated as a capture). -/
def moveIsJump (s e : Pos) : Prop := |e.1 - s.1| > 1 ∨ |e.2 - s.2| > 1

instance (s e : Pos) : Decidable (moveIsJump s e) := by
  unfold moveIsJump; infer_instance

/-- The `(captured_r, captured_c)` result of `make_move`'s path walk: only a
jump move scans for an opponent piece to remove. -/
def moveCaptured (b : Board) (player : Nat) (s e : Pos) : Option Pos :=
  if moveIsJump s e then
    findCaptured b player e.1 e.2 (moveDr s e) (moveDc s e) 16 s.1 s.2
  else none

/-- `is_capture` as finally reported by `make_move`: a jump move whose path
walk actually found an opponent piece (the defensive
`is_capture = False` downgrade otherwise). -/
def moveIsCapture (b : Board) (player : Nat) (s e : Pos) : Prop :=
  moveIsJump s e ∧ moveCaptured b player s e ≠ none

instance (b : Board) (player : Nat) (s e : Pos) : Decidable (moveIsCapture b player s e) := by
  unfold moveIsCapture; infer_instance

/-- `if captured_r is not None: temp_board[captured_r][captured_c] = 0`:
remove the captured piece from the board, if one was found. -/
def removeCaptured (b : Board) (captured : Option Pos) : Board :=
  match captured with
  | some q => setCell b q.1 q.2 0
  | none => b

/-- The `temp_board` of `make_move` after all item assignments: remove the
captured piece (if any), write the moving piece to the destination, clear the
source, then apply the promotion check to the moved-to cell. -/
def moveBoardAfter (b : Board) (player : Nat) (s e : Pos) : Board :=
  let b1 := removeCaptured b (moveCaptured b player s e)
  let b2 := setCell (setCell b1 e.1 e.2 (cell b s.1 s.2)) s.1 s.2 0
  if cell b2 e.1 e.2 = 1 ∧ e.1 = 0 then setCell b2 e.1 e.2 3
  else if cell b2 e.1 e.2 = 2 ∧ e.1 = 7 then setCell b2 e.1 e.2 4
  else b2

/-- The board/capture part of `make_move(start, end, board, player)`, shared
by the live-game and the simulation branch: the final `temp_board`, the
`is_capture` flag, and the `new_forced_capture_piece` (the landing square
when a capture still has further captures from there on the new board).
Returns `(new_board, is_capture, new_forced_capture_piece)`. -/
def make_move_core (b : Board) (player : Nat) (s e : Pos) :
    Board × Bool × Option Pos :=
  (moveBoardAfter b player s e,
   decide (moveIsCapture b player s e),
   if moveIsCapture b player s e then
     if get_captures_for_piece e.1 e.2 (moveBoardAfter b player s e) player ≠ [] then
       some e
     else none
   else none)

/-- The simulation branch of `make_move` (an explicit `board` argument):
returns `(new_board, next_player_type, new_forced_capture_piece, is_capture)`;
the turn passes unless the move was a capture with a continuation. -/
def make_move_sim (b : Board) (player : Nat) (s e : Pos) :
    Board × Nat × Option Pos × Bool :=
  let r := make_move_core b player s e
  let next := if ¬ r.2.1 ∨ r.2.2 = none then flipPlayer player else player
  (r.1, next, r.2.2, r.2.1)

/-- The live-game branch of `make_move` (`board is None`): commits the new
board and either records the forced continuation with the turn unchanged, or
clears it and flips `current_player`. -/
def make_move_main (st : GameState) (s e : Pos) : GameState :=
  let r := make_move_core st.board st.current_player s e
  if r.2.1 ∧ r.2.2 ≠ none then
    { board := r.1, current_player := st.current_player, forced_capture_piece := r.2.2 }
  else
    { board := r.1, current_player := flipPlayer st.current_player,
      forced_capture_piece := none }

/-- `is_move_valid(start_pos, end_pos)` on the live state, as a boolean
(dropping only the message updates): bounds, source ownership, destination
emptiness, the forced-continuation filter, and membership of the move in
`get_all_possible_moves_for_player`. -/
def is_move_valid (st : GameState) (s e : Pos) : Bool :=
  if ¬ (inB s.1 s.2 ∧ inB e.1 e.2) then false
  else
    let piece := cell st.board s.1 s.2
    if piece = 0 ∨ ¬ isOwnPiece st.current_player piece then false
    else if cell st.board e.1 e.2 ≠ 0 then false
    else if (match st.forced_capture_piece with
             | some fp => decide (fp ≠ s)
             | none => false) then false
    else
      let res := get_all_possible_moves_for_player st.board st.current_player
        st.forced_capture_piece st.forced_capture_piece
      match res.1.lookup s with
      | some ds => ds.contains e
      | none => false

/-- The per-cell contribution to `_evaluate_board`: material (pawn 10,
king 30) plus the pawn advancement bonus, positive for the perspective
player's pieces and negative for the opponent's. -/
def cellScore (ai piece r : Nat) : Int :=
  let opponent := flipPlayer ai
  if piece = 0 then 0
  else if (ai = 1 ∧ (piece = 1 ∨ piece = 3)) ∨ (ai = 2 ∧ (piece = 2 ∨ piece = 4)) then
    if piece = 1 ∨ piece = 2 then
      10 + (if ai = 1 then 7 - (r : Int) else (r : Int))
    else if piece = 3 ∨ piece = 4 then 30
    else 0
  else if (opponent = 1 ∧ (piece = 1 ∨ piece = 3))
      ∨ (opponent = 2 ∧ (piece = 2 ∨ piece = 4)) then
    if piece = 1 ∨ piece = 2 then
      -10 - (if opponent = 1 then 7 - (r : Int) else (r : Int))
    else if piece = 3 ∨ piece = 4 then -30
    else 0
  else 0

/-- `_evaluate_board(board, current_ai_player_type)`: the running `score`
accumulated over the row-major scan of the board. -/
def evaluate_board (b : Board) (ai : Nat) : Int :=
  (List.range 8).foldl
    (fun s r => (List.range 8).foldl
      (fun s2 c => s2 + cellScore ai (cell b (Int.ofNat r) (Int.ofNat c)) r) s)
    0

/-- Scores during search: the Python floats `-inf`, ordinary integers, `+inf`.
All board evaluations are integers; the infinities appear only as the initial
`alpha`, `beta`, `max_eval`, `min_eval` sentinels. -/
inductive EInt where
  | ninf : EInt
  | fin : Int → EInt
  | pinf : EInt
  deriving DecidableEq, Repr

/-- The order on scores, as a boolean comparison. -/
def EInt.ble : EInt → EInt → Bool
  | .ninf, _ => true
  | _, .pinf => true
  | .fin m, .fin n => m ≤ n
  | .pinf, _ => false
  | .fin _, .ninf => false

instance : LE EInt := ⟨fun a b => EInt.ble a b = true⟩

instance : LT EInt := ⟨fun a b => EInt.ble a b = true ∧ ¬ EInt.ble b a = true⟩

instance : DecidableRel (α := EInt) (· ≤ ·) := fun a b => decEq (EInt.ble a b) true

instance : DecidableRel (α := EInt) (· < ·) := fun _ _ => instDecidableAnd

theorem EInt.le_def (a b : EInt) : a ≤ b ↔ EInt.ble a b = true := Iff.rfl

instance : LinearOrder EInt where
  le_refl a := by
    cases a <;> simp only [EInt.le_def, EInt.ble, decide_eq_true_eq] <;> omega
  le_trans a b c := by
    cases a <;> cases b <;> cases c <;>
      simp only [EInt.le_def, EInt.ble, decide_eq_true_eq] <;>
      first
        | omega
        | (intros; trivial)
  le_antisymm a b := by
    cases a <;> cases b <;>
      simp only [EInt.le_def, EInt.ble, decide_eq_true_eq, EInt.fin.injEq] <;>
      first
        | omega
        | (intros; trivial)
  le_total a b := by
    cases a <;> cases b <;>
      simp only [EInt.le_def, EInt.ble, decide_eq_true_eq] <;>
      first
        | omega
        | simp
  lt_iff_le_not_le a b := Iff.rfl
  decidableLE := inferInstance
  decidableLT := inferInstance
  decidableEq := inferInstance

/-- Embed an integer score. -/
def toE (n : Int) : EInt := EInt.fin n

/-- One simulated move inside `_minimax` and the recursion on its outcome:
`make_move(start, end, board, sim_player)` followed by
`if is_capture and new_forced_capture:` recurse at the same depth with the
same maximizing flag and the continuation as forced piece, else recurse at
`depth - 1` with the flipped flag and `None`. `rec` is the next-smaller-fuel
instance of the search. -/
def abChild (b₀ : Board) (rec : Board → Nat → Bool → EInt → EInt → Option Pos → EInt)
    (depth : Nat) (maximizing : Bool) (player : Nat) (s e : Pos)
    (alpha beta : EInt) : EInt :=
  let r := make_move_sim b₀ player s e
  if r.2.2.2 && r.2.2.1.isSome then rec r.1 depth maximizing alpha beta r.2.2.1
  else rec r.1 (depth - 1) (!maximizing) alpha beta none

/-- The inner `for end_pos in end_positions` loop of the maximizing branch:
accumulates `(max_eval, alpha)`, breaking on `beta <= alpha`. `f` evaluates
one child given the current alpha. -/
def abMaxInner (f : Pos × Pos → EInt → EInt) (beta : EInt) (s : Pos) :
    List Pos → EInt → EInt → EInt × EInt
  | [], m, a => (m, a)
  | e :: es, m, a =>
    let ev := f (s, e) a
    let m2 := max m ev
    let a2 := max a ev
    if beta ≤ a2 then (m2, a2) else abMaxInner f beta s es m2 a2

/-- The outer `for start_pos, end_positions in ...` loop of the maximizing
branch, re-checking `beta <= alpha` after each inner loop and returning
`max_eval`. -/
def abMaxOuter (f : Pos × Pos → EInt → EInt) (beta : EInt) :
    List (Pos × List Pos) → EInt → EInt → EInt
  | [], m, _ => m
  | g :: rest, m, a =>
    let r := abMaxInner f beta g.1 g.2 m a
    if beta ≤ r.2 then r.1 else abMaxOuter f beta rest r.1 r.2

/-- The inner loop of the minimizing branch: accumulates `(min_eval, beta)`,
breaking on `beta <= alpha`. `f` evaluates one child given the current beta. -/
def abMinInner (f : Pos × Pos → EInt → EInt) (alpha : EInt) (s : Pos) :
    List Pos → EInt → EInt → EInt × EInt
  | [], m, bb => (m, bb)
  | e :: es, m, bb =>
    let ev := f (s, e) bb
    let m2 := min m ev
    let b2 := min bb ev
    if b2 ≤ alpha then (m2, b2) else abMinInner f alpha s es m2 b2

/-- The outer loop of the minimizing branch. -/
def abMinOuter (f : Pos × Pos → EInt → EInt) (alpha : EInt) :
    List (Pos × List Pos) → EInt → EInt → EInt
  | [], m, _ => m
  | g :: rest, m, bb =>
    let r := abMinInner f alpha g.1 g.2 m bb
    if r.2 ≤ alpha then r.1 else abMinOuter f alpha rest r.1 r.2

/-- `_minimax(board, depth, maximizing_player, alpha, beta,
current_ai_player_type, original_forced_capture_piece)`, with the live
`self.forced_capture_piece` (`sf`) and the AI colour (`ai`) as the fixed
ambient state it reads. The extra fuel argument only bounds the
forced-capture same-depth recursion (each such step removes a piece, so any
fuel above `depth` plus the piece count is never exhausted); on exhaustion it
falls back to the static evaluation. -/
def minimaxAB (sf : Option Pos) (ai : Nat) :
    Nat → Board → Nat → Bool → EInt → EInt → Option Pos → EInt
  | 0, b, _, _, _, _, _ => toE (evaluate_board b ai)
  | fuel + 1, b, depth, maximizing, alpha, beta, forced =>
    let simPlayer := if maximizing then ai else flipPlayer ai
    if depth = 0 ∨ check_game_over b simPlayer forced sf then
      toE (evaluate_board b ai)
    else
      let res := get_all_possible_moves_for_player b simPlayer forced sf
      if res.1 = [] then toE (evaluate_board b ai)
      else if maximizing then
        abMaxOuter
          (fun p a => abChild b (minimaxAB sf ai fuel) depth true simPlayer p.1 p.2 a beta)
          beta res.1 EInt.ninf alpha
      else
        abMinOuter
          (fun p bb => abChild b (minimaxAB sf ai fuel) depth false simPlayer p.1 p.2 alpha bb)
          alpha res.1 EInt.pinf beta

/-- The flattening of the move dictionary into the `(start, end)` pairs the
two nested loops visit, in visiting order. -/
def flattenMoves (dict : List (Pos × List Pos)) : List (Pos × Pos) :=
  dict.flatMap fun g => g.2.map fun e => (g.1, e)

/-- One child of the unpruned reference search: the same simulated move and
the same same-depth/decremented-depth case split as `abChild`, without the
alpha-beta window. -/
def fullChild (b₀ : Board) (rec : Board → Nat → Bool → Option Pos → EInt)
    (depth : Nat) (maximizing : Bool) (player : Nat) (p : Pos × Pos) : EInt :=
  let r := make_move_sim b₀ player p.1 p.2
  if r.2.2.2 && r.2.2.1.isSome then rec r.1 depth maximizing r.2.2.1
  else rec r.1 (depth - 1) (!maximizing) none

/-- The unpruned full minimax over the same tree as `minimaxAB`: same
terminal tests, same move enumeration, same child recursion, but folding
plain `max`/`min` over all children with no cut-offs. -/
def minimaxFull (sf : Option Pos) (ai : Nat) :
    Nat → Board → Nat → Bool → Option Pos → EInt
  | 0, b, _, _, _ => toE (evaluate_board b ai)
  | fuel + 1, b, depth, maximizing, forced =>
    let simPlayer := if maximizing then ai else flipPlayer ai
    if depth = 0 ∨ check_game_over b simPlayer forced sf then
      toE (evaluate_board b ai)
    else
      let res := get_all_possible_moves_for_player b simPlayer forced sf
      if res.1 = [] then toE (evaluate_board b ai)
      else
        let vals := (flattenMoves res.1).map
          (fullChild b (minimaxFull sf ai fuel) depth maximizing simPlayer)
        if maximizing then vals.foldl max EInt.ninf else vals.foldl min EInt.pinf

/-- `_initialize_board()`: an 8×8 grid of zeros with black pawns on the dark
squares of rows 0-2 and white pawns on the dark squares of rows 5-7. -/
def initialize_board : Board :=
  (List.range 8).map fun r => (List.range 8).map fun c =>
    if (r + c) % 2 = 1 then (if r < 3 then 2 else if r > 4 then 1 else 0) else 0

/-- A heap of Python list objects for the aliasing analysis of `make_move`:
each address holds one row's contents. A board object is a list of row
addresses. -/
abbrev Store := Nat → List Nat

/-- `temp_board = [row[:] for row in board]`: allocate fresh row objects at
the consecutive addresses `base, base+1, ...`, each holding a copy of the
corresponding row of the board at `bAddrs`; every other address is
untouched. -/
def copyStore (σ : Store) (bAddrs : List Nat) (base : Nat) : Store :=
  fun a =>
    if base ≤ a ∧ a < base + bAddrs.length then σ (bAddrs.getD (a - base) 0)
    else σ a

/-- The board value read from a list of row addresses. -/
def readBoard (σ : Store) (addrs : List Nat) : Board := addrs.map σ

/-- `temp_board[r][c] = v` for a board whose rows live at
`base, base+1, ...`: mutate the single row object at address `base + r`. -/
def heapWrite (σ : Store) (base : Nat) (r c : Int) (v : Nat) : Store :=
  fun a => if a = base + r.toNat then (σ a).set c.toNat v else σ a

/-- The heap version of `removeCaptured`: mutate the captured piece's row
object, if a piece was captured. -/
def heapRemoveCaptured (σ1 : Store) (base : Nat) (captured : Option Pos) : Store :=
  match captured with
  | some q => heapWrite σ1 base q.1 q.2 0
  | none => σ1

/-- The board-mutating phase of `make_move`, replayed on the heap: copy the
rows, find and remove the captured piece, relocate the moving piece, promote.
All item assignments target the fresh `temp_board` rows. Returns the final
heap and the row addresses of `temp_board`. -/
def make_move_heap (σ : Store) (bAddrs : List Nat) (base : Nat)
    (player : Nat) (s e : Pos) : Store × List Nat :=
  let σ1 := copyStore σ bAddrs base
  let tAddrs := List.range' base bAddrs.length
  let tb := readBoard σ1 tAddrs
  let piece := cell tb s.1 s.2
  let drAbs := |e.1 - s.1|
  let dcAbs := |e.2 - s.2|
  let dr := if drAbs > 0 then (e.1 - s.1) / drAbs else 0
  let dc := if dcAbs > 0 then (e.2 - s.2) / dcAbs else 0
  let isJump := drAbs > 1 ∨ dcAbs > 1
  let captured := if isJump then findCaptured tb player e.1 e.2 dr dc 16 s.1 s.2 else none
  let σ2 := heapRemoveCaptured σ1 base captured
  let σ3 := heapWrite σ2 base e.1 e.2 piece
  let σ4 := heapWrite σ3 base s.1 s.2 0
  let tb4 := readBoard σ4 tAddrs
  let σ5 :=
    if cell tb4 e.1 e.2 = 1 ∧ e.1 = 0 then heapWrite σ4 base e.1 e.2 3
    else if cell tb4 e.1 e.2 = 2 ∧ e.1 = 7 then heapWrite σ4 base e.1 e.2 4
    else σ4
  (σ5, tAddrs)

theorem WF8_row (b : Board) (hwf : WF8 b) (i : Nat) (h : i < 8) :
    ∃ row, b[i]? = some row ∧ row.length = 8 := by
  obtain ⟨hlen, hrows⟩ := hwf
  have hi : i < b.length := by omega
  exact ⟨b[i], List.getElem?_eq_getElem hi, hrows _ (b.getElem_mem hi)⟩

theorem WF8_setCell (b : Board) (hwf : WF8 b) (r c : Int) (v : Nat)
    (h : inB r c) : WF8 (setCell b r c v) := by
  obtain ⟨h0, h1, h2, h3⟩ := h
  obtain ⟨row, hrow, hrowlen⟩ := WF8_row b hwf r.toNat (by omega)
  refine ⟨by simp [setCell, hwf.1], fun rw hrw => ?_⟩
  rcases List.mem_or_eq_of_mem_set hrw with hmem | heq
  · exact hwf.2 rw hmem
  · rw [heq, hrow]
    simp [hrowlen]

theorem cell_setCell (b : Board) (hwf : WF8 b) (r c r2 c2 : Int) (v : Nat)
    (hrc : inB r c) (hrc2 : inB r2 c2) :
    cell (setCell b r c v) r2 c2 = if r2 = r ∧ c2 = c then v else cell b r2 c2 := by
  obtain ⟨hr0, hr8, hc0, hc8⟩ := hrc
  obtain ⟨hr20, hr28, hc20, hc28⟩ := hrc2
  obtain ⟨row, hrow, hrowlen⟩ := WF8_row b hwf r.toNat (by omega)
  unfold cell setCell
  rw [List.getElem?_set]
  by_cases hr : r2 = r
  · have : r.toNat = r2.toNat := by omega
    rw [if_pos this, if_pos (by rw [hwf.1]; omega), hrow]
    simp only [Option.getD_some]
    rw [List.getElem?_set]
    by_cases hc : c2 = c
    · rw [if_pos (by omega), if_pos (by omega), if_pos ⟨hr, hc⟩]
      simp
    · rw [if_neg (by omega), if_neg (by simp [hr, hc]), ← this, hrow]
      simp
  · rw [if_neg (by omega), if_neg (by simp [hr])]

theorem cellScore_flip (piece r : Nat) : cellScore 1 piece r = - cellScore 2 piece r := by
  rcases piece with _ | _ | _ | _ | _ | n <;>
    simp [cellScore, flipPlayer] <;> omega

theorem foldRow_flip (b : Board) (r : Nat) :
    ∀ (l : List Nat) (s1 s2 : Int), s1 = -s2 →
    (l.foldl (fun acc c => acc + cellScore 1 (cell b (Int.ofNat r) (Int.ofNat c)) r) s1) =
    - (l.foldl (fun acc c => acc + cellScore 2 (cell b (Int.ofNat r) (Int.ofNat c)) r) s2)
  | [], s1, s2, h => by simpa using h
  | c :: cs, s1, s2, h => by
    simp only [List.foldl_cons]
    exact foldRow_flip b r cs _ _ (by rw [h, cellScore_flip]; ring)

theorem foldRows_flip (b : Board) :
    ∀ (l : List Nat) (s1 s2 : Int), s1 = -s2 →
    (l.foldl (fun acc r => (List.range 8).foldl
      (fun acc2 c => acc2 + cellScore 1 (cell b (Int.ofNat r) (Int.ofNat c)) r) acc) s1) =
    - (l.foldl (fun acc r => (List.range 8).foldl
      (fun acc2 c => acc2 + cellScore 2 (cell b (Int.ofNat r) (Int.ofNat c)) r) acc) s2)
  | [], s1, s2, h => by simpa using h
  | r :: rs, s1, s2, h => by
    simp only [List.foldl_cons]
    exact foldRows_flip b rs _ _ (foldRow_flip b r _ s1 s2 h)

/-- Claim C10: the static evaluation is antisymmetric in the perspective
player: for every board, `_evaluate_board(board, 1)` is the exact negation of
`_evaluate_board(board, 2)` over integer arithmetic. -/
theorem C10_evaluate_board_antisymmetric (b : Board) :
    evaluate_board b 1 = - evaluate_board b 2 := by
  unfold evaluate_board
  exact foldRows_flip b (List.range 8) 0 0 (by ring)

theorem pyIdx_len8 {α : Type} (l : List α) (hlen : l.length = 8) (i : Int) :
    pyIdx l i = if -8 ≤ i ∧ i < 8 then l[(i % 8).toNat]? else none := by
  unfold pyIdx
  rw [hlen]
  by_cases h1 : 0 ≤ i ∧ i < 8
  · rw [if_pos (by exact_mod_cast h1), if_pos (by omega)]
    congr 1
    omega
  · rw [if_neg (by exact_mod_cast h1)]
    by_cases h2 : -8 ≤ i ∧ i < 0
    · rw [if_pos (by exact_mod_cast h2), if_pos (by omega)]
      congr 1
      omega
    · rw [if_neg (by exact_mod_cast h2), if_neg (by omega)]

theorem pyLookup_mod (b : Board) (hwf : WF8 b) (row col : Int) (t : Nat → Bool) :
    ((pyIdx b row).bind fun rw => (pyIdx rw col).map t) =
      (if -8 ≤ row ∧ row < 8 ∧ -8 ≤ col ∧ col < 8 then
         some (t (cell b (row % 8) (col % 8))) else none) := by
  rw [pyIdx_len8 b hwf.1 row]
  by_cases hr : -8 ≤ row ∧ row < 8
  · rw [if_pos hr]
    obtain ⟨rw, hrow, hrwlen⟩ := WF8_row b hwf (row % 8).toNat (by omega)
    rw [hrow, Option.some_bind, pyIdx_len8 rw hrwlen col]
    by_cases hc : -8 ≤ col ∧ col < 8
    · rw [if_pos hc, if_pos ⟨hr.1, hr.2, hc.1, hc.2⟩]
      obtain ⟨v, hv⟩ : ∃ v, rw[(col % 8).toNat]? = some v := by
        refine ⟨rw[(col % 8).toNat], List.getElem?_eq_getElem (by omega)⟩
      rw [hv]
      unfold cell
      rw [hrow]
      simp [hv]
    · rw [if_neg hc, if_neg (by tauto)]
      rfl
  · rw [if_neg hr, if_neg (by tauto)]
    rfl

/-- Claim C7, counterexample: on the initial board, the position `(-1, 0)` is
outside `[0,8)×[0,8)` yet `is_player_piece` reports `true` for white (Python's
negative indexing wraps to row 7), and at `(8, 0)` the lookup raises
`IndexError` (modelled as `none`) instead of returning false. -/
theorem C7_counterexample :
    is_player_piece (-1) 0 1 initialize_board = some true
    ∧ is_player_piece 8 0 1 initialize_board = none
    ∧ ¬ inB (-1) 0 ∧ ¬ inB 8 0 := by decide

/-- Claim C7, amended: for a well-formed board and a position outside
`[0,8)×[0,8)`, the ownership predicates do not uniformly return false without
raising: an index pair inside `[-8,8)×[-8,8)` wraps around Python-style and
the predicate reports ownership of the wrapped cell `(row % 8, col % 8)`
(possibly `true`), and any index outside `[-8,8)` raises `IndexError`
(modelled as `none`). -/
theorem C7_amended_out_of_range (b : Board) (hwf : WF8 b) (row col : Int)
    (player : Nat) (hout : ¬ inB row col) :
    is_player_piece row col player b =
      (if -8 ≤ row ∧ row < 8 ∧ -8 ≤ col ∧ col < 8 then
         some (isOwnPiece player (cell b (row % 8) (col % 8))) else none)
    ∧ is_opponent_piece row col player b =
      (if -8 ≤ row ∧ row < 8 ∧ -8 ≤ col ∧ col < 8 then
         some (isOppPiece player (cell b (row % 8) (col % 8))) else none) :=
  ⟨pyLookup_mod b hwf row col (isOwnPiece player),
   pyLookup_mod b hwf row col (isOppPiece player)⟩

/-- Witness for the amended claim C7 at the concrete position `(-1, 0)` on the
initial board. -/
theorem C7_witness :
    WF8 initialize_board ∧ ¬ inB (-1) 0 ∧
    is_player_piece (-1) 0 1 initialize_board =
      (if -8 ≤ (-1 : Int) ∧ (-1 : Int) < 8 ∧ -8 ≤ (0 : Int) ∧ (0 : Int) < 8 then
         some (isOwnPiece 1 (cell initialize_board ((-1) % 8) (0 % 8))) else none) :=
  ⟨by decide, by decide,
   (C7_amended_out_of_range initialize_board (by decide) (-1) 0 1 (by decide)).1⟩

/-- A position with one white pawn at `(5,0)` and one black pawn at `(2,1)`. -/
def poisonBoard : Board :=
  [[0, 0, 0, 0, 0, 0, 0, 0],
   [0, 0, 0, 0, 0, 0, 0, 0],
   [0, 2, 0, 0, 0, 0, 0, 0],
   [0, 0, 0, 0, 0, 0, 0, 0],
   [0, 0, 0, 0, 0, 0, 0, 0],
   [1, 0, 0, 0, 0, 0, 0, 0],
   [0, 0, 0, 0, 0, 0, 0, 0],
   [0, 0, 0, 0, 0, 0, 0, 0]]

/-- `poisonBoard` after white plays the non-capture `(5,0) -> (4,1)`. -/
def poisonAfter : Board :=
  [[0, 0, 0, 0, 0, 0, 0, 0],
   [0, 0, 0, 0, 0, 0, 0, 0],
   [0, 2, 0, 0, 0, 0, 0, 0],
   [0, 0, 0, 0, 0, 0, 0, 0],
   [0, 1, 0, 0, 0, 0, 0, 0],
   [0, 0, 0, 0, 0, 0, 0, 0],
   [0, 0, 0, 0, 0, 0, 0, 0],
   [0, 0, 0, 0, 0, 0, 0, 0]]

set_option maxRecDepth 40000 in
/-- Claim C2, evaluated at the failing input: with the live game state's
`forced_capture_piece` set to `(0,0)`, the root `_minimax` call (white
maximizing, ai = 1, depth 2, explicit forced piece `(5,0)`) returns 1, while
the identical call with the live forced piece unset returns 0. The reason:
white's only move `(5,0) -> (4,1)` is not a capture, so the search recurses at
depth 1 with forced-piece argument `None`; the move collector replaces that
`None` by the live `forced_capture_piece`, so black's enumeration at that node
is restricted to the square `(0,0)` (which holds no black piece) and comes
back empty, instead of enumerating all of black's pieces. -/
theorem C2_live_forced_piece_poisons_search :
    minimaxAB (some (0, 0)) 1 10 poisonBoard 2 true EInt.ninf EInt.pinf (some (5, 0)) = toE 1
    ∧ minimaxAB none 1 10 poisonBoard 2 true EInt.ninf EInt.pinf (some (5, 0)) = toE 0
    ∧ (make_move_sim poisonBoard 1 (5, 0) (4, 1)).1 = poisonAfter
    ∧ (make_move_sim poisonBoard 1 (5, 0) (4, 1)).2.2.2 = false
    ∧ get_all_possible_moves_for_player poisonAfter 2 none (some (0, 0)) = ([], false)
    ∧ get_all_possible_moves_for_player poisonAfter 2 none none =
        ([((2, 1), [(3, 0), (3, 2)])], true) := by
  refine ⟨?_, ?_, ?_, ?_, ?_, ?_⟩ <;> decide

theorem scanEntry_mem (b : Board) (player : Nat) (eff : Option Pos) (r c : Int)
    (e : Pos × List Pos × Bool) (h : e ∈ scanEntry b player eff r c) :
    e = ((r, c), (get_possible_moves r c b player).1, (get_possible_moves r c b player).2)
    ∧ isOwnPiece player (cell b r c) = true
    ∧ (get_possible_moves r c b player).1 ≠ [] := by
  unfold scanEntry at h
  by_cases h1 : isOwnPiece player (cell b r c) = true
  · rw [if_pos h1] at h
    split at h
    · simp at h
    · by_cases h2 : (get_possible_moves r c b player).1 ≠ []
      · rw [if_pos h2] at h
        simp only [List.mem_singleton] at h
        exact ⟨h, h1, h2⟩
      · rw [if_neg h2] at h
        simp at h
  · rw [if_neg h1] at h
    simp at h

theorem scanEntry_self (b : Board) (player : Nat) (r c : Int)
    (hown : isOwnPiece player (cell b r c) = true)
    (hmv : (get_possible_moves r c b player).1 ≠ []) :
    ((r, c), (get_possible_moves r c b player).1, (get_possible_moves r c b player).2)
      ∈ scanEntry b player none r c := by
  unfold scanEntry
  rw [if_pos hown]
  simp only [Bool.false_eq_true, if_false]
  rw [if_pos hmv]
  simp

theorem mem_scanEntries (b : Board) (player : Nat) (eff : Option Pos)
    (e : Pos × List Pos × Bool) :
    e ∈ scanEntries b player eff ↔
      ∃ r, r ∈ List.range 8 ∧ ∃ c, c ∈ List.range 8 ∧
        e ∈ scanEntry b player eff (Int.ofNat r) (Int.ofNat c) := by
  unfold scanEntries
  simp only [List.mem_flatMap]
  constructor
  · rintro ⟨r, hr, c, hc, h⟩
    exact ⟨r, hr, c, hc, h⟩
  · rintro ⟨r, hr, c, hc, h⟩
    exact ⟨r, hr, c, hc, h⟩

theorem get_possible_moves_capture_case (r c : Int) (b : Board) (player : Nat)
    (h : get_captures_for_piece r c b player ≠ []) :
    get_possible_moves r c b player = (get_captures_for_piece r c b player, true) := by
  unfold get_possible_moves
  simp [h]

theorem get_possible_moves_no_capture_flag (r c : Int) (b : Board) (player : Nat)
    (h : get_captures_for_piece r c b player = []) :
    (get_possible_moves r c b player).2 = false := by
  unfold get_possible_moves
  rw [if_neg (by simp [h])]
  dsimp only
  split
  · rfl
  · split <;> rfl

theorem get_possible_moves_flag (r c : Int) (b : Board) (player : Nat) :
    (get_possible_moves r c b player).2 = true ↔
      get_captures_for_piece r c b player ≠ [] := by
  by_cases h : get_captures_for_piece r c b player = []
  · rw [get_possible_moves_no_capture_flag r c b player h]
    simp [h]
  · rw [get_possible_moves_capture_case r c b player h]
    simpa using h

/-- Some piece of `player` (scanned row-major over the 8×8 board) has at
least one capture available. -/
def hasAnyCapture (b : Board) (player : Nat) : Prop :=
  ∃ r, r ∈ List.range 8 ∧ ∃ c, c ∈ List.range 8 ∧
    isOwnPiece player (cell b (Int.ofNat r) (Int.ofNat c)) = true ∧
    get_captures_for_piece (Int.ofNat r) (Int.ofNat c) b player ≠ []

instance (b : Board) (player : Nat) : Decidable (hasAnyCapture b player) := by
  unfold hasAnyCapture
  infer_instance

theorem all_player_captures_iff (b : Board) (player : Nat) :
    all_player_captures b player none ≠ [] ↔ hasAnyCapture b player := by
  unfold all_player_captures
  rw [ne_eq, List.map_eq_nil_iff]
  constructor
  · intro h
    obtain ⟨e, he⟩ := List.exists_mem_of_ne_nil _ h
    have hmem := (List.mem_filter.mp he).1
    have hflag : e.2.2 = true := by simpa using (List.mem_filter.mp he).2
    obtain ⟨r, hr, c, hc, hse⟩ := (mem_scanEntries b player none e).mp hmem
    obtain ⟨heq, hown, hne⟩ := scanEntry_mem b player none _ _ e hse
    refine ⟨r, hr, c, hc, hown, ?_⟩
    rw [← get_possible_moves_flag]
    rw [heq] at hflag
    exact hflag
  · rintro ⟨r, hr, c, hc, hown, hcap⟩
    have hflag : (get_possible_moves (Int.ofNat r) (Int.ofNat c) b player).2 = true :=
      (get_possible_moves_flag _ _ b player).mpr hcap
    have hne : (get_possible_moves (Int.ofNat r) (Int.ofNat c) b player).1 ≠ [] := by
      rw [get_possible_moves_capture_case _ _ b player hcap]
      exact hcap
    have hse := scanEntry_self b player (Int.ofNat r) (Int.ofNat c) hown hne
    have hmem : ((Int.ofNat r, Int.ofNat c),
        (get_possible_moves (Int.ofNat r) (Int.ofNat c) b player).1,
        (get_possible_moves (Int.ofNat r) (Int.ofNat c) b player).2)
        ∈ scanEntries b player none :=
      (mem_scanEntries b player none _).mpr ⟨r, hr, c, hc, hse⟩
    exact List.ne_nil_of_mem (List.mem_filter.mpr ⟨hmem, hflag⟩)

theorem get_all_none_caps (b : Board) (player : Nat)
    (h : all_player_captures b player none ≠ []) :
    get_all_possible_moves_for_player b player none none =
      (all_player_captures b player none, true) := by
  unfold get_all_possible_moves_for_player
  dsimp only
  rw [if_pos h]

theorem get_all_none_movs (b : Board) (player : Nat)
    (h : ¬ all_player_captures b player none ≠ []) :
    get_all_possible_moves_for_player b player none none =
      (all_player_moves b player none,
        decide (all_player_moves b player none ≠ [])) := by
  unfold get_all_possible_moves_for_player
  dsimp only
  rw [if_neg h]

/-- Claim C1, counterexample: on the initial board white has no capture at
all, yet `get_all_possible_moves_for_player` returns flag `true` together
with the ordinary move `(5,0) -> (4,1)`, which is not a capture path of
`(5,0)` (whose capture list is empty). The returned flag means "some move
exists", not "must capture". -/
theorem C1_counterexample :
    (get_all_possible_moves_for_player initialize_board 1 none none).2 = true
    ∧ ((5, 0), [(4, 1)]) ∈ (get_all_possible_moves_for_player initialize_board 1 none none).1
    ∧ get_captures_for_piece 5 0 initialize_board 1 = []
    ∧ ¬ hasAnyCapture initialize_board 1 := by
  refine ⟨?_, ?_, ?_, ?_⟩ <;> decide

theorem mem_all_player_captures (b : Board) (player : Nat) (s : Pos) (ds : List Pos)
    (h : (s, ds) ∈ all_player_captures b player none) :
    ds ≠ [] ∧ ds = get_captures_for_piece s.1 s.2 b player := by
  unfold all_player_captures at h
  obtain ⟨e, he, heq⟩ := List.mem_map.mp h
  have hmem := (List.mem_filter.mp he).1
  have hflag : e.2.2 = true := by simpa using (List.mem_filter.mp he).2
  obtain ⟨r, hr, c, hc, hse⟩ := (mem_scanEntries b player none e).mp hmem
  obtain ⟨hee, hown, hne⟩ := scanEntry_mem b player none _ _ e hse
  rw [hee] at hflag heq
  simp only at hflag heq
  have hcap : get_captures_for_piece (Int.ofNat r) (Int.ofNat c) b player ≠ [] :=
    (get_possible_moves_flag _ _ b player).mp hflag
  have hgp := get_possible_moves_capture_case _ _ b player hcap
  rw [Prod.mk.injEq] at heq
  obtain ⟨hs, hds⟩ := heq
  rw [hgp] at hds
  simp only at hds
  subst hds
  subst hs
  exact ⟨hcap, rfl⟩

/-- A position where white has a mandatory capture: a white pawn at `(5,2)`
can jump the black pawn at `(4,3)` to `(3,4)`. -/
def pawnCaptureBoard : Board :=
  [[0, 0, 0, 0, 0, 0, 0, 0],
   [0, 0, 0, 0, 0, 0, 0, 0],
   [0, 0, 0, 0, 0, 0, 0, 0],
   [0, 0, 0, 0, 0, 0, 0, 0],
   [0, 0, 0, 2, 0, 0, 0, 0],
   [0, 0, 1, 0, 0, 0, 0, 0],
   [0, 0, 0, 0, 0, 0, 0, 0],
   [0, 0, 0, 0, 0, 0, 0, 0]]

/-- A position whose only piece, a white pawn on the promotion row, has no
move at all (both forward squares are off the board). -/
def blockedPawnBoard : Board :=
  [[0, 1, 0, 0, 0, 0, 0, 0],
   [0, 0, 0, 0, 0, 0, 0, 0],
   [0, 0, 0, 0, 0, 0, 0, 0],
   [0, 0, 0, 0, 0, 0, 0, 0],
   [0, 0, 0, 0, 0, 0, 0, 0],
   [0, 0, 0, 0, 0, 0, 0, 0],
   [0, 0, 0, 0, 0, 0, 0, 0],
   [0, 0, 0, 0, 0, 0, 0, 0]]

/-- Claim C1, amended: the flag returned by
`get_all_possible_moves_for_player` (with no forced piece) means "this player
has at least one move", not "must capture". When some piece of the player has
a capture, the flag is true and every returned destination set is a non-empty
validated capture list for its start position; the flag always equals
non-emptiness of the returned map; and when the flag is false, no piece of
the player has any capture available (indeed no move at all). -/
theorem C1_amended_flag_semantics (b : Board) (player : Nat) :
    (hasAnyCapture b player →
      (get_all_possible_moves_for_player b player none none).2 = true ∧
      ∀ s ds, (s, ds) ∈ (get_all_possible_moves_for_player b player none none).1 →
        ds ≠ [] ∧ ds = get_captures_for_piece s.1 s.2 b player)
    ∧ (get_all_possible_moves_for_player b player none none).2 =
        decide ((get_all_possible_moves_for_player b player none none).1 ≠ [])
    ∧ ((get_all_possible_moves_for_player b player none none).2 = false →
      ∀ r, r ∈ List.range 8 → ∀ c, c ∈ List.range 8 →
        isOwnPiece player (cell b (Int.ofNat r) (Int.ofNat c)) = true →
        get_captures_for_piece (Int.ofNat r) (Int.ofNat c) b player = []) := by
  refine ⟨?_, ?_, ?_⟩
  · intro hcap
    have hne := (all_player_captures_iff b player).mpr hcap
    rw [get_all_none_caps b player hne]
    exact ⟨rfl, fun s ds h => mem_all_player_captures b player s ds h⟩
  · by_cases h : all_player_captures b player none ≠ []
    · rw [get_all_none_caps b player h]
      simpa using h
    · rw [get_all_none_movs b player h]
  · intro hfalse r hr c hc hown
    by_contra hne
    have hcap : hasAnyCapture b player := ⟨r, hr, c, hc, hown, hne⟩
    have h := (all_player_captures_iff b player).mpr hcap
    rw [get_all_none_caps b player h] at hfalse
    simp at hfalse

/-- Witness for the amended claim C1: on `pawnCaptureBoard` white has a
capture and the flag is true; on `blockedPawnBoard` the flag is false and
the white pawn at `(0,1)` indeed has no capture. -/
theorem C1_witness :
    (get_all_possible_moves_for_player pawnCaptureBoard 1 none none).2 = true
    ∧ get_captures_for_piece (Int.ofNat 0) (Int.ofNat 1) blockedPawnBoard 1 = [] :=
  ⟨((C1_amended_flag_semantics pawnCaptureBoard 1).1 (by decide)).1,
   (C1_amended_flag_semantics blockedPawnBoard 1).2.2 (by decide) 0 (by decide) 1
     (by decide) (by decide)⟩

theorem findCaptured_some_inB (b : Board) (player : Nat) (er ec dr dc : Int) :
    ∀ (fuel : Nat) (cr cc : Int) (q : Pos),
      findCaptured b player er ec dr dc fuel cr cc = some q →
      inB q.1 q.2 ∧ q ≠ (er, ec) := by
  intro fuel
  induction fuel with
  | zero => intro cr cc q h; simp [findCaptured] at h
  | succ n ih =>
    intro cr cc q h
    unfold findCaptured at h
    dsimp only at h
    split at h
    · exact absurd h (by simp)
    · split at h
      · exact absurd h (by simp)
      · split at h
        · rename_i h1 h2 h3
          obtain rfl := Option.some_injective _ h
          refine ⟨by simpa using h2, ?_⟩
          intro hq
          rw [Prod.mk.injEq] at hq
          exact h1 ⟨hq.1, hq.2⟩
        · split at h
          · exact absurd h (by simp)
          · exact ih _ _ q h

theorem make_move_core_nf_eq (b : Board) (player : Nat) (s e : Pos) :
    (make_move_core b player s e).2.2 =
      (if (make_move_core b player s e).2.1 = true
          ∧ get_captures_for_piece e.1 e.2 (make_move_core b player s e).1 player ≠ []
       then some e else none) := by
  by_cases h : moveIsCapture b player s e <;>
    by_cases h2 : get_captures_for_piece e.1 e.2 (moveBoardAfter b player s e) player ≠ [] <;>
    simp [make_move_core, h, h2]

/-- Claim C3: for every accepted move applied to the live game state, if the
move was a capture and the moved piece has at least one further capture from
its landing square on the updated board, `forced_capture_piece` becomes the
landing position and `current_player` is unchanged; in every other case
`forced_capture_piece` becomes `None` and `current_player` flips. -/
theorem C3_forced_capture_invariant (st : GameState) (s e : Pos)
    (hacc : is_move_valid st s e = true) :
    ((make_move_core st.board st.current_player s e).2.1 = true
        ∧ get_captures_for_piece e.1 e.2 (make_move_core st.board st.current_player s e).1
            st.current_player ≠ [] →
      (make_move_main st s e).forced_capture_piece = some e
        ∧ (make_move_main st s e).current_player = st.current_player)
    ∧ (¬ ((make_move_core st.board st.current_player s e).2.1 = true
        ∧ get_captures_for_piece e.1 e.2 (make_move_core st.board st.current_player s e).1
            st.current_player ≠ []) →
      (make_move_main st s e).forced_capture_piece = none
        ∧ (make_move_main st s e).current_player = flipPlayer st.current_player) := by
  have hnf := make_move_core_nf_eq st.board st.current_player s e
  unfold make_move_main
  constructor
  · intro hyp
    rw [if_pos hyp] at hnf
    rw [if_pos ⟨hyp.1, by rw [hnf]; simp⟩]
    exact ⟨hnf, rfl⟩
  · intro hyp
    rw [if_neg hyp] at hnf
    rw [if_neg (by rw [hnf]; simp)]
    exact ⟨rfl, rfl⟩

/-- Witness for claim C3: on the initial board, white's opening move
`(5,0) -> (4,1)` is accepted, is not a capture, and indeed clears the forced
piece and passes the turn to black. -/
theorem C3_witness :
    (make_move_main ⟨initialize_board, 1, none⟩ (5, 0) (4, 1)).forced_capture_piece = none
    ∧ (make_move_main ⟨initialize_board, 1, none⟩ (5, 0) (4, 1)).current_player
        = flipPlayer 1 :=
  (C3_forced_capture_invariant ⟨initialize_board, 1, none⟩ (5, 0) (4, 1)
    (by decide)).2 (by decide)

theorem relocate_end_cell (b1 : Board) (piece : Nat) (s e : Pos) (hwf1 : WF8 b1)
    (hs : inB s.1 s.2) (he : inB e.1 e.2) (hprod : ¬ (e.1 = s.1 ∧ e.2 = s.2)) :
    cell (setCell (setCell b1 e.1 e.2 piece) s.1 s.2 0) e.1 e.2 = piece := by
  have hwf2 : WF8 (setCell b1 e.1 e.2 piece) := WF8_setCell b1 hwf1 _ _ _ he
  rw [cell_setCell _ hwf2 s.1 s.2 e.1 e.2 0 hs he, if_neg hprod,
      cell_setCell b1 hwf1 e.1 e.2 e.1 e.2 _ he he, if_pos ⟨rfl, rfl⟩]

theorem WF8_captureRemoved (b : Board) (player : Nat) (s e : Pos) (hwf : WF8 b) :
    WF8 (removeCaptured b (moveCaptured b player s e)) := by
  unfold removeCaptured
  cases hq : moveCaptured b player s e with
  | none => exact hwf
  | some q =>
    have hinB : inB q.1 q.2 := by
      unfold moveCaptured at hq
      split at hq
      · exact (findCaptured_some_inB b player e.1 e.2 _ _ 16 s.1 s.2 q hq).1
      · simp at hq
    exact WF8_setCell b hwf q.1 q.2 0 hinB

theorem moveBoardAfter_end_cell (b : Board) (player : Nat) (s e : Pos) (hwf : WF8 b)
    (hs : inB s.1 s.2) (he : inB e.1 e.2) (hne : s ≠ e) :
    cell (moveBoardAfter b player s e) e.1 e.2 =
      (if cell b s.1 s.2 = 1 ∧ e.1 = 0 then 3
       else if cell b s.1 s.2 = 2 ∧ e.1 = 7 then 4
       else cell b s.1 s.2) := by
  have hprod : ¬ (e.1 = s.1 ∧ e.2 = s.2) := by
    intro hc
    exact hne (Prod.ext hc.1.symm hc.2.symm)
  have hb1wf := WF8_captureRemoved b player s e hwf
  unfold moveBoardAfter
  dsimp only
  have hb2 := relocate_end_cell _ (cell b s.1 s.2) s e hb1wf hs he hprod
  have hwf2 : WF8 (setCell (removeCaptured b (moveCaptured b player s e))
      e.1 e.2 (cell b s.1 s.2)) :=
    WF8_setCell _ hb1wf _ _ _ he
  have hwf3 : WF8 (setCell (setCell (removeCaptured b (moveCaptured b player s e))
      e.1 e.2 (cell b s.1 s.2)) s.1 s.2 0) :=
    WF8_setCell _ hwf2 _ _ _ hs
  rw [hb2]
  split_ifs with h1 h2
  · rw [cell_setCell _ hwf3 e.1 e.2 e.1 e.2 3 he he, if_pos ⟨rfl, rfl⟩]
  · rw [cell_setCell _ hwf3 e.1 e.2 e.1 e.2 4 he he, if_pos ⟨rfl, rfl⟩]
  · exact hb2

/-- Claim C6: in every move executed by `make_move` (with distinct in-range
endpoints on a well-formed board), a white pawn whose destination is row 0
becomes a white king (cell code 3) and a black pawn whose destination is
row 7 becomes a black king (cell code 4), in the same transition; a piece
that is already a king is left exactly as it was by the promotion step. -/
theorem C6_promotion (b : Board) (player : Nat) (s e : Pos) (hwf : WF8 b)
    (hs : inB s.1 s.2) (he : inB e.1 e.2) (hne : s ≠ e) :
    (cell b s.1 s.2 = 1 ∧ e.1 = 0 →
      cell (make_move_core b player s e).1 e.1 e.2 = 3)
    ∧ (cell b s.1 s.2 = 2 ∧ e.1 = 7 →
      cell (make_move_core b player s e).1 e.1 e.2 = 4)
    ∧ (cell b s.1 s.2 = 3 ∨ cell b s.1 s.2 = 4 →
      cell (make_move_core b player s e).1 e.1 e.2 = cell b s.1 s.2) := by
  have hend := moveBoardAfter_end_cell b player s e hwf hs he hne
  have hcore : (make_move_core b player s e).1 = moveBoardAfter b player s e := rfl
  rw [hcore]
  refine ⟨fun h => ?_, fun h => ?_, fun h => ?_⟩
  · rw [hend, if_pos h]
  · rw [hend, if_neg (by omega), if_pos h]
  · rw [hend, if_neg (by omega), if_neg (by omega)]

/-- A position with a single white pawn at `(1,2)`, one step from promotion. -/
def promoBoard : Board :=
  [[0, 0, 0, 0, 0, 0, 0, 0],
   [0, 0, 1, 0, 0, 0, 0, 0],
   [0, 0, 0, 0, 0, 0, 0, 0],
   [0, 0, 0, 0, 0, 0, 0, 0],
   [0, 0, 0, 0, 0, 0, 0, 0],
   [0, 0, 0, 0, 0, 0, 0, 0],
   [0, 0, 0, 0, 0, 0, 0, 0],
   [0, 0, 0, 0, 0, 0, 0, 0]]

/-- Witness for claim C6 at a concrete move: the white pawn at `(1,2)` moving
to `(0,1)` is promoted to a white king. -/
theorem C6_witness :
    cell (make_move_core promoBoard 1 (1, 2) (0, 1)).1 0 1 = 3 :=
  (C6_promotion promoBoard 1 (1, 2) (0, 1) (by decide) (by decide)
    (by decide) (by decide)).1 ⟨by decide, rfl⟩

theorem findCaptured_none_of_no_enemy (b : Board) (player : Nat)
    (sr sc dr dc T : Int) (hT : 2 ≤ T) (hdir : dr ≠ 0 ∨ dc ≠ 0)
    (hnoenemy : ∀ j : Int, 0 < j → j < T →
      ¬ isOppPiece player (cell b (sr + j * dr) (sc + j * dc)) = true) :
    ∀ (fuel : Nat) (k : Int), 0 ≤ k → k < T → T ≤ k + fuel →
      findCaptured b player (sr + T * dr) (sc + T * dc) dr dc fuel
        (sr + k * dr) (sc + k * dc) = none := by
  intro fuel
  induction fuel with
  | zero => intro k h0 h1 h2; omega
  | succ n ih =>
    intro k h0 h1 h2
    have hstep : sr + k * dr + dr = sr + (k + 1) * dr := by ring
    have hstep2 : sc + k * dc + dc = sc + (k + 1) * dc := by ring
    unfold findCaptured
    dsimp only
    rw [hstep, hstep2]
    by_cases hkT : k + 1 = T
    · rw [if_pos (by rw [hkT]; exact ⟨rfl, rfl⟩)]
    · have hend : ¬ (sr + (k + 1) * dr = sr + T * dr ∧ sc + (k + 1) * dc = sc + T * dc) := by
        rcases hdir with hdr | hdc
        · intro hc
          have : (k + 1) * dr = T * dr := by omega
          have : (k + 1 - T) * dr = 0 := by ring_nf; omega
          rcases mul_eq_zero.mp this with h | h
          · exact hkT (by omega)
          · exact hdr h
        · intro hc
          have : (k + 1) * dc = T * dc := by omega
          have : (k + 1 - T) * dc = 0 := by ring_nf; omega
          rcases mul_eq_zero.mp this with h | h
          · exact hkT (by omega)
          · exact hdc h
      rw [if_neg hend]
      split
      · rfl
      · rw [if_neg (by simpa using hnoenemy (k + 1) (by omega) (by omega))]
        split
        · rfl
        · have := ih (k + 1) (by omega) (by omega) (by omega)
          exact this

theorem moveCaptured_none_of_no_enemy (b : Board) (player : Nat) (s e : Pos)
    (hs : inB s.1 s.2) (he : inB e.1 e.2) (hjump : moveIsJump s e)
    (haligned : |e.1 - s.1| = |e.2 - s.2| ∨ e.1 = s.1 ∨ e.2 = s.2)
    (hnoenemy : ∀ j : Int, 0 < j → j < max |e.1 - s.1| |e.2 - s.2| →
      ¬ isOppPiece player
          (cell b (s.1 + j * moveDr s e) (s.2 + j * moveDc s e)) = true) :
    moveCaptured b player s e = none := by
  have hmle : max |e.1 - s.1| |e.2 - s.2| = |e.1 - s.1|
      ∨ max |e.1 - s.1| |e.2 - s.2| = |e.2 - s.2| := max_choice _ _
  have hm1 : |e.1 - s.1| ≤ max |e.1 - s.1| |e.2 - s.2| := le_max_left _ _
  have hm2 : |e.2 - s.2| ≤ max |e.1 - s.1| |e.2 - s.2| := le_max_right _ _
  set T := max |e.1 - s.1| |e.2 - s.2| with hTdef
  obtain ⟨hs0, hs1, hs2, hs3⟩ := hs
  obtain ⟨he0, he1, he2, he3⟩ := he
  have habs1 : |e.1 - s.1| ≤ 7 := abs_le.mpr ⟨by omega, by omega⟩
  have habs2 : |e.2 - s.2| ≤ 7 := abs_le.mpr ⟨by omega, by omega⟩
  have habs1n : 0 ≤ |e.1 - s.1| := abs_nonneg _
  have habs2n : 0 ≤ |e.2 - s.2| := abs_nonneg _
  have hconn1 : e.1 - s.1 ≤ |e.1 - s.1| ∧ -(e.1 - s.1) ≤ |e.1 - s.1| :=
    ⟨le_abs_self _, neg_le_abs _⟩
  have hconn2 : e.2 - s.2 ≤ |e.2 - s.2| ∧ -(e.2 - s.2) ≤ |e.2 - s.2| :=
    ⟨le_abs_self _, neg_le_abs _⟩
  have hjump2 : |e.1 - s.1| > 1 ∨ |e.2 - s.2| > 1 := hjump
  have hT2 : 2 ≤ T := by omega
  have hdr : e.1 = s.1 + T * moveDr s e := by
    unfold moveDr
    by_cases h : |e.1 - s.1| > 0
    · rw [if_pos h]
      have hdvd : |e.1 - s.1| ∣ (e.1 - s.1) := (abs_dvd _ _).mpr dvd_rfl
      have hTeq : T = |e.1 - s.1| := by
        rcases haligned with h1 | h1 | h1
        · omega
        · have h1z : |e.1 - s.1| = 0 := by rw [h1, sub_self, abs_zero]
          omega
        · have h2z : |e.2 - s.2| = 0 := by rw [h1, sub_self, abs_zero]
          omega
      rw [hTeq, Int.mul_ediv_cancel' hdvd]
      omega
    · rw [if_neg h, mul_zero]
      omega
  have hdc : e.2 = s.2 + T * moveDc s e := by
    unfold moveDc
    by_cases h : |e.2 - s.2| > 0
    · rw [if_pos h]
      have hdvd : |e.2 - s.2| ∣ (e.2 - s.2) := (abs_dvd _ _).mpr dvd_rfl
      have hTeq : T = |e.2 - s.2| := by
        rcases haligned with h1 | h1 | h1
        · omega
        · have h1z : |e.1 - s.1| = 0 := by rw [h1, sub_self, abs_zero]
          omega
        · have h2z : |e.2 - s.2| = 0 := by rw [h1, sub_self, abs_zero]
          omega
      rw [hTeq, Int.mul_ediv_cancel' hdvd]
      omega
    · rw [if_neg h, mul_zero]
      omega
  have hdir : moveDr s e ≠ 0 ∨ moveDc s e ≠ 0 := by
    by_contra hcon
    push_neg at hcon
    rw [hcon.1, mul_zero] at hdr
    rw [hcon.2, mul_zero] at hdc
    have h1z : |e.1 - s.1| = 0 := by
      have h0 : e.1 - s.1 = 0 := by omega
      rw [h0, abs_zero]
    have h2z : |e.2 - s.2| = 0 := by
      have h0 : e.2 - s.2 = 0 := by omega
      rw [h0, abs_zero]
    omega
  have hfc := findCaptured_none_of_no_enemy b player s.1 s.2 (moveDr s e) (moveDc s e)
    T hT2 hdir hnoenemy 16 0 (by omega) (by omega) (by omega)
  rw [show s.1 + (0 : Int) * moveDr s e = s.1 from by ring,
      show s.2 + (0 : Int) * moveDc s e = s.2 from by ring, ← hdr, ← hdc] at hfc
  unfold moveCaptured
  rw [if_pos hjump]
  exact hfc

theorem moveBoardAfter_start_cell (b : Board) (player : Nat) (s e : Pos)
    (hwf : WF8 b) (hs : inB s.1 s.2) (he : inB e.1 e.2) (hne : s ≠ e)
    (hcapnone : moveCaptured b player s e = none) :
    cell (moveBoardAfter b player s e) s.1 s.2 = 0 := by
  have hprod : ¬ (s.1 = e.1 ∧ s.2 = e.2) := by
    intro hc
    exact hne (Prod.ext hc.1 hc.2)
  have hwf1 : WF8 (setCell b e.1 e.2 (cell b s.1 s.2)) := WF8_setCell b hwf _ _ _ he
  have hwf2 : WF8 (setCell (setCell b e.1 e.2 (cell b s.1 s.2)) s.1 s.2 0) :=
    WF8_setCell _ hwf1 _ _ _ hs
  have hb2 : cell (setCell (setCell b e.1 e.2 (cell b s.1 s.2)) s.1 s.2 0) s.1 s.2 = 0 := by
    rw [cell_setCell _ hwf1 s.1 s.2 s.1 s.2 0 hs hs, if_pos ⟨rfl, rfl⟩]
  unfold moveBoardAfter
  rw [hcapnone]
  unfold removeCaptured
  dsimp only
  split_ifs
  · rw [cell_setCell _ hwf2 e.1 e.2 s.1 s.2 3 he hs, if_neg hprod, hb2]
  · rw [cell_setCell _ hwf2 e.1 e.2 s.1 s.2 4 he hs, if_neg hprod, hb2]
  · exact hb2

theorem moveBoardAfter_other_cell (b : Board) (player : Nat) (s e : Pos)
    (hwf : WF8 b) (hs : inB s.1 s.2) (he : inB e.1 e.2)
    (hcapnone : moveCaptured b player s e = none)
    (r2 c2 : Int) (h2 : inB r2 c2) (hns : (r2, c2) ≠ s) (hne2 : (r2, c2) ≠ e) :
    cell (moveBoardAfter b player s e) r2 c2 = cell b r2 c2 := by
  have hprods : ¬ (r2 = s.1 ∧ c2 = s.2) := by
    intro hc
    exact hns (Prod.ext hc.1 hc.2)
  have hprode : ¬ (r2 = e.1 ∧ c2 = e.2) := by
    intro hc
    exact hne2 (Prod.ext hc.1 hc.2)
  have hwf1 : WF8 (setCell b e.1 e.2 (cell b s.1 s.2)) := WF8_setCell b hwf _ _ _ he
  have hwf2 : WF8 (setCell (setCell b e.1 e.2 (cell b s.1 s.2)) s.1 s.2 0) :=
    WF8_setCell _ hwf1 _ _ _ hs
  have hb2 : cell (setCell (setCell b e.1 e.2 (cell b s.1 s.2)) s.1 s.2 0) r2 c2
      = cell b r2 c2 := by
    rw [cell_setCell _ hwf1 s.1 s.2 r2 c2 0 hs h2, if_neg hprods,
        cell_setCell b hwf e.1 e.2 r2 c2 _ he h2, if_neg hprode]
  unfold moveBoardAfter
  rw [hcapnone]
  unfold removeCaptured
  dsimp only
  split_ifs
  · rw [cell_setCell _ hwf2 e.1 e.2 r2 c2 3 he h2, if_neg hprode, hb2]
  · rw [cell_setCell _ hwf2 e.1 e.2 r2 c2 4 he h2, if_neg hprode, hb2]
  · exact hb2

/-- Claim C8: a move classified as a capture (displacement over one square)
whose straight path from start to end holds no enemy piece of the mover does
not fail: `make_move` removes no piece, still relocates the moving piece from
start to end (promoting it if the destination is its promotion row), and
reports `is_capture = false` with no forced continuation. -/
theorem C8_capture_without_enemy_degrades (b : Board) (player : Nat) (s e : Pos)
    (hwf : WF8 b) (hs : inB s.1 s.2) (he : inB e.1 e.2)
    (hjump : moveIsJump s e)
    (haligned : |e.1 - s.1| = |e.2 - s.2| ∨ e.1 = s.1 ∨ e.2 = s.2)
    (hnoenemy : ∀ j : Int, 0 < j → j < max |e.1 - s.1| |e.2 - s.2| →
      ¬ isOppPiece player
          (cell b (s.1 + j * moveDr s e) (s.2 + j * moveDc s e)) = true) :
    (make_move_core b player s e).2.1 = false
    ∧ (make_move_core b player s e).2.2 = none
    ∧ cell (make_move_core b player s e).1 s.1 s.2 = 0
    ∧ cell (make_move_core b player s e).1 e.1 e.2 =
        (if cell b s.1 s.2 = 1 ∧ e.1 = 0 then 3
         else if cell b s.1 s.2 = 2 ∧ e.1 = 7 then 4
         else cell b s.1 s.2)
    ∧ ∀ r2 c2 : Int, inB r2 c2 → (r2, c2) ≠ s → (r2, c2) ≠ e →
        cell (make_move_core b player s e).1 r2 c2 = cell b r2 c2 := by
  have hcapnone := moveCaptured_none_of_no_enemy b player s e hs he hjump haligned hnoenemy
  have hnocap : ¬ moveIsCapture b player s e := by
    intro hc
    exact hc.2 hcapnone
  have hne : s ≠ e := by
    intro hc
    subst hc
    unfold moveIsJump at hjump
    simp at hjump
  refine ⟨?_, ?_, ?_, ?_, ?_⟩
  · simp [make_move_core, hnocap]
  · simp [make_move_core, hnocap]
  · exact moveBoardAfter_start_cell b player s e hwf hs he hne hcapnone
  · exact moveBoardAfter_end_cell b player s e hwf hs he hne
  · exact fun r2 c2 h2 hns hne2 =>
      moveBoardAfter_other_cell b player s e hwf hs he hcapnone r2 c2 h2 hns hne2

/-- A position with a white pawn at `(5,2)` and a friendly white pawn at
`(4,3)` on the diagonal towards `(3,4)`. -/
def friendlyBlockBoard : Board :=
  [[0, 0, 0, 0, 0, 0, 0, 0],
   [0, 0, 0, 0, 0, 0, 0, 0],
   [0, 0, 0, 0, 0, 0, 0, 0],
   [0, 0, 0, 0, 0, 0, 0, 0],
   [0, 0, 0, 1, 0, 0, 0, 0],
   [0, 0, 1, 0, 0, 0, 0, 0],
   [0, 0, 0, 0, 0, 0, 0, 0],
   [0, 0, 0, 0, 0, 0, 0, 0]]

/-- Witness for claim C8: on `friendlyBlockBoard` the "capture" move
`(5,2) -> (3,4)` has no enemy on its path, so it degrades: no capture is
reported and the pawn is simply relocated to `(3,4)`. -/
theorem C8_witness :
    (make_move_core friendlyBlockBoard 1 (5, 2) (3, 4)).2.1 = false
    ∧ cell (make_move_core friendlyBlockBoard 1 (5, 2) (3, 4)).1 3 4 = 1 := by
  have h := C8_capture_without_enemy_degrades friendlyBlockBoard 1 (5, 2) (3, 4)
    (by decide) (by decide) (by decide) (by decide) (by decide)
    (by
      intro j h1 h2
      have hmax : max |(3 : Int) - 5| |(4 : Int) - 2| = 2 := by decide
      rw [hmax] at h2
      have hj : j = 1 := by omega
      subst hj
      decide)
  exact ⟨h.1, by rw [h.2.2.2.1]; decide⟩

theorem isOppPiece_ne_zero (player piece : Nat) (h : isOppPiece player piece = true) :
    piece ≠ 0 := by
  unfold isOppPiece at h
  split at h <;> simp at h <;> omega

theorem isOwnPiece_ne_zero (player piece : Nat) (h : isOwnPiece player piece = true) :
    piece ≠ 0 := by
  unfold isOwnPiece at h
  split at h <;> simp at h <;> omega

theorem not_own_of_opp (player piece : Nat) (h : isOppPiece player piece = true) :
    ¬ isOwnPiece player piece = true := by
  unfold isOppPiece at h
  unfold isOwnPiece
  split at h <;> rename_i hp
  · rw [if_pos hp]
    simp at h ⊢
    omega
  · rw [if_neg hp]
    simp at h ⊢
    omega

theorem scanCaptures_skip (b : Board) (player : Nat) :
    ∀ (L1 L2 : List Pos), (∀ p ∈ L1, inB p.1 p.2 ∧ cell b p.1 p.2 = 0) →
      scanCaptures b player none (L1 ++ L2) = scanCaptures b player none L2
  | [], _, _ => rfl
  | p :: L1, L2, h => by
    have hp := h p (List.mem_cons_self p L1)
    rw [List.cons_append]
    conv_lhs => unfold scanCaptures
    rw [if_pos hp.1]
    dsimp only
    rw [hp.2, if_pos rfl]
    exact scanCaptures_skip b player L1 L2 fun q hq => h q (List.mem_cons_of_mem p hq)

theorem scanCaptures_enemy_two_empty (b : Board) (player : Nat)
    (q a1 a2 : Pos) (rest : List Pos)
    (hq : inB q.1 q.2) (hqe : isOppPiece player (cell b q.1 q.2) = true)
    (h1 : inB a1.1 a1.2) (h1e : cell b a1.1 a1.2 = 0)
    (h2 : inB a2.1 a2.2) (h2e : cell b a2.1 a2.2 = 0) :
    scanCaptures b player none (q :: a1 :: a2 :: rest) =
      a1 :: a2 :: scanCaptures b player (some q) rest := by
  conv_lhs => unfold scanCaptures
  rw [if_pos hq]
  dsimp only
  rw [if_neg (isOppPiece_ne_zero player _ hqe), if_neg (not_own_of_opp player _ hqe),
      if_pos hqe]
  conv_lhs => unfold scanCaptures
  rw [if_pos h1]
  dsimp only
  rw [h1e, if_pos rfl]
  conv_lhs => unfold scanCaptures
  rw [if_pos h2]
  dsimp only
  rw [h2e, if_pos rfl]

theorem scanCaptures_two_enemy (b : Board) (player : Nat)
    (q1 q2 : Pos) (rest : List Pos)
    (hq1 : inB q1.1 q1.2) (hq1e : isOppPiece player (cell b q1.1 q1.2) = true)
    (hq2 : inB q2.1 q2.2) (hq2e : isOppPiece player (cell b q2.1 q2.2) = true) :
    scanCaptures b player none (q1 :: q2 :: rest) = [] := by
  conv_lhs => unfold scanCaptures
  rw [if_pos hq1]
  dsimp only
  rw [if_neg (isOppPiece_ne_zero player _ hq1e), if_neg (not_own_of_opp player _ hq1e),
      if_pos hq1e]
  conv_lhs => unfold scanCaptures
  rw [if_pos hq2]
  dsimp only
  rw [if_neg (isOppPiece_ne_zero player _ hq2e), if_neg (not_own_of_opp player _ hq2e),
      if_pos hq2e]

theorem get_captures_king (r c : Int) (b : Board) (player : Nat)
    (hking : cell b r c = 3 ∨ cell b r c = 4) :
    get_captures_for_piece r c b player =
      [((-1 : Int), (-1 : Int)), (-1, 1), (1, -1), (1, 1)].flatMap fun d =>
        scanCaptures b player none (kingRay r c d.1 d.2) := by
  unfold get_captures_for_piece
  rcases hking with h | h <;> rw [h] <;> norm_num

/-- Claim C5: king capture scanning per diagonal ray. (a) If the ray holds,
after a prefix of empty in-range squares, an enemy piece followed immediately
by two empty in-range squares, both those squares are returned among the
king's capture destinations. (b) If the adjacent square on the ray holds a
friendly piece, the king has zero captures and zero ordinary moves along that
ray. (c) If the first enemy reached on the ray (after empty squares) is
followed immediately by a second enemy, the ray contributes zero capture
destinations. -/
theorem C5_king_ray_scanning (b : Board) (player : Nat) (r c dr dc : Int)
    (hking : cell b r c = 3 ∨ cell b r c = 4)
    (hdir : (dr, dc) ∈ [((-1 : Int), (-1 : Int)), (-1, 1), (1, -1), (1, 1)]) :
    (∀ (L1 : List Pos) (q a1 a2 : Pos) (rest : List Pos),
      kingRay r c dr dc = L1 ++ q :: a1 :: a2 :: rest →
      (∀ p ∈ L1, inB p.1 p.2 ∧ cell b p.1 p.2 = 0) →
      inB q.1 q.2 → isOppPiece player (cell b q.1 q.2) = true →
      inB a1.1 a1.2 → cell b a1.1 a1.2 = 0 →
      inB a2.1 a2.2 → cell b a2.1 a2.2 = 0 →
      a1 ∈ get_captures_for_piece r c b player
        ∧ a2 ∈ get_captures_for_piece r c b player)
    ∧ (inB (r + dr) (c + dc) → isOwnPiece player (cell b (r + dr) (c + dc)) = true →
      scanCaptures b player none (kingRay r c dr dc) = []
        ∧ collectSlide b (kingRay r c dr dc) = [])
    ∧ (∀ (L1 : List Pos) (q1 q2 : Pos) (rest : List Pos),
      kingRay r c dr dc = L1 ++ q1 :: q2 :: rest →
      (∀ p ∈ L1, inB p.1 p.2 ∧ cell b p.1 p.2 = 0) →
      inB q1.1 q1.2 → isOppPiece player (cell b q1.1 q1.2) = true →
      inB q2.1 q2.2 → isOppPiece player (cell b q2.1 q2.2) = true →
      scanCaptures b player none (kingRay r c dr dc) = []) := by
  refine ⟨?_, ?_, ?_⟩
  · intro L1 q a1 a2 rest hray hL1 hq hqe h1 h1e h2 h2e
    have hscan : scanCaptures b player none (kingRay r c dr dc) =
        a1 :: a2 :: scanCaptures b player (some q) rest := by
      rw [hray, scanCaptures_skip b player L1 _ hL1,
          scanCaptures_enemy_two_empty b player q a1 a2 rest hq hqe h1 h1e h2 h2e]
    have hmem : a1 ∈ scanCaptures b player none (kingRay r c dr dc)
        ∧ a2 ∈ scanCaptures b player none (kingRay r c dr dc) := by
      rw [hscan]
      exact ⟨List.mem_cons_self a1 _, List.mem_cons_of_mem a1 (List.mem_cons_self a2 _)⟩
    rw [get_captures_king r c b player hking]
    exact ⟨List.mem_flatMap.mpr ⟨(dr, dc), hdir, hmem.1⟩,
           List.mem_flatMap.mpr ⟨(dr, dc), hdir, hmem.2⟩⟩
  · intro hin hown
    have hfst : kingRay r c dr dc = (r + dr, c + dc) ::
        (List.range' 2 6).map (fun i => (r + dr * Int.ofNat i, c + dc * Int.ofNat i)) := by
      unfold kingRay
      have h17 : List.range' 1 7 = 1 :: List.range' 2 6 := by decide
      rw [h17, List.map_cons]
      norm_num
    constructor
    · rw [hfst]
      conv_lhs => unfold scanCaptures
      rw [if_pos (by simpa using hin)]
      dsimp only
      rw [if_neg (by simpa using isOwnPiece_ne_zero player _ hown),
          if_pos (by simpa using hown)]
    · rw [hfst]
      conv_lhs => unfold collectSlide
      rw [if_pos (by simpa using hin)]
      rw [if_neg (by simpa using isOwnPiece_ne_zero player _ hown)]
  · intro L1 q1 q2 rest hray hL1 hq1 hq1e hq2 hq2e
    rw [hray, scanCaptures_skip b player L1 _ hL1,
        scanCaptures_two_enemy b player q1 q2 rest hq1 hq1e hq2 hq2e]

/-- A position with a white king at `(4,4)`: towards `(-1,-1)` an adjacent
black pawn at `(3,3)` with `(2,2)` and `(1,1)` empty behind it; towards
`(1,1)` an adjacent friendly white pawn at `(5,5)`; towards `(-1,1)` two
consecutive black pawns at `(3,5)` and `(2,6)`. -/
def kingTestBoard : Board :=
  [[0, 0, 0, 0, 0, 0, 0, 0],
   [0, 0, 0, 0, 0, 0, 0, 0],
   [0, 0, 0, 0, 0, 0, 2, 0],
   [0, 0, 0, 2, 0, 2, 0, 0],
   [0, 0, 0, 0, 3, 0, 0, 0],
   [0, 0, 0, 0, 0, 1, 0, 0],
   [0, 0, 0, 0, 0, 0, 0, 0],
   [0, 0, 0, 0, 0, 0, 0, 0]]

/-- Witness for claim C5 on `kingTestBoard`: the two squares behind the
enemy at `(3,3)` are capture destinations of the king at `(4,4)`; the ray
towards the friendly pawn yields no captures and no slides; the double-enemy
ray yields no captures. -/
theorem C5_witness :
    ((2 : Int), (2 : Int)) ∈ get_captures_for_piece 4 4 kingTestBoard 1
    ∧ ((1 : Int), (1 : Int)) ∈ get_captures_for_piece 4 4 kingTestBoard 1
    ∧ scanCaptures kingTestBoard 1 none (kingRay 4 4 1 1) = []
    ∧ collectSlide kingTestBoard (kingRay 4 4 1 1) = []
    ∧ scanCaptures kingTestBoard 1 none (kingRay 4 4 (-1) 1) = [] := by
  have hA := (C5_king_ray_scanning kingTestBoard 1 4 4 (-1) (-1) (by decide)
      (by decide)).1
    [] (3, 3) (2, 2) (1, 1) [(0, 0), (-1, -1), (-2, -2), (-3, -3)]
    (by decide) (by simp) (by decide) (by decide) (by decide) (by decide)
    (by decide) (by decide)
  have hB := (C5_king_ray_scanning kingTestBoard 1 4 4 1 1 (by decide)
      (by decide)).2.1 (by decide) (by decide)
  have hC := (C5_king_ray_scanning kingTestBoard 1 4 4 (-1) 1 (by decide)
      (by decide)).2.2
    [] (3, 5) (2, 6) [(1, 7), (0, 8), (-1, 9), (-2, 10), (-3, 11)]
    (by decide) (by simp) (by decide) (by decide) (by decide) (by decide)
  exact ⟨hA.1, hA.2, hB.1, hB.2, hC⟩

theorem copyStore_untouched (σ : Store) (bAddrs : List Nat) (base : Nat)
    (a : Nat) (ha : a < base) : copyStore σ bAddrs base a = σ a := by
  unfold copyStore
  rw [if_neg (by omega)]

theorem heapWrite_untouched (σ : Store) (base : Nat) (r c : Int) (v : Nat)
    (a : Nat) (ha : a < base) : heapWrite σ base r c v a = σ a := by
  unfold heapWrite
  rw [if_neg (by omega)]

theorem readBoard_copy (σ : Store) (bAddrs : List Nat) (base : Nat) :
    readBoard (copyStore σ bAddrs base) (List.range' base bAddrs.length) =
      readBoard σ bAddrs := by
  unfold readBoard
  apply List.ext_getElem?
  intro n
  rw [List.getElem?_map, List.getElem?_map]
  by_cases hn : n < bAddrs.length
  · rw [List.getElem?_range' base 1 hn, List.getElem?_eq_getElem hn]
    simp only [Option.map_some']
    unfold copyStore
    rw [if_pos (by omega)]
    congr 1
    rw [List.getD_eq_getElem?_getD, Nat.add_sub_cancel_left, one_mul,
        List.getElem?_eq_getElem hn]
    rfl
  · rw [List.getElem?_eq_none (by simpa using hn),
        List.getElem?_eq_none (by omega)]
    rfl

theorem readBoard_heapWrite (σ : Store) (base n : Nat) (r c : Int) (v : Nat) :
    readBoard (heapWrite σ base r c v) (List.range' base n) =
      setCell (readBoard σ (List.range' base n)) r c v := by
  unfold readBoard setCell
  apply List.ext_getElem?
  intro k
  by_cases hk : k < n
  · rw [List.getElem?_map, List.getElem?_range' base 1 hk]
    simp only [Option.map_some']
    rw [List.getElem?_set]
    by_cases hkr : r.toNat = k
    · subst hkr
      rw [if_pos rfl, if_pos (by simpa using hk)]
      unfold heapWrite
      rw [if_pos (by omega)]
      rw [List.getElem?_map, List.getElem?_range' base 1 hk]
      rfl
    · rw [if_neg hkr, List.getElem?_map, List.getElem?_range' base 1 hk]
      simp only [Option.map_some']
      unfold heapWrite
      rw [if_neg (by omega)]
  · rw [List.getElem?_eq_none
        (by simp only [List.length_map, List.length_range']; omega)]
    rw [List.getElem?_eq_none]
    simp only [List.length_set, List.length_map, List.length_range']
    omega

theorem heapRemoveCaptured_untouched (σ1 : Store) (base : Nat)
    (captured : Option Pos) (a : Nat) (ha : a < base) :
    heapRemoveCaptured σ1 base captured a = σ1 a := by
  unfold heapRemoveCaptured
  cases captured with
  | none => rfl
  | some q => exact heapWrite_untouched σ1 base q.1 q.2 0 a ha

theorem readBoard_heapRemoveCaptured (σ1 : Store) (base n : Nat)
    (captured : Option Pos) :
    readBoard (heapRemoveCaptured σ1 base captured) (List.range' base n) =
      removeCaptured (readBoard σ1 (List.range' base n)) captured := by
  unfold heapRemoveCaptured removeCaptured
  cases captured with
  | none => rfl
  | some q => exact readBoard_heapWrite σ1 base n q.1 q.2 0

/-- Claim C9: `make_move` in simulation mode operates on a copy of the input
board and never mutates its input. On the heap model: after the call, every
row object of the caller's board reads exactly as before; the returned board's
row objects are disjoint from the caller's; and the returned board value is
exactly `make_move_core` of the caller's board value. -/
theorem C9_make_move_no_mutation (σ : Store) (bAddrs : List Nat) (base : Nat)
    (player : Nat) (s e : Pos)
    (hfresh : ∀ a ∈ bAddrs, a < base) :
    (∀ a ∈ bAddrs, (make_move_heap σ bAddrs base player s e).1 a = σ a)
    ∧ (∀ a ∈ bAddrs, a ∉ (make_move_heap σ bAddrs base player s e).2)
    ∧ readBoard (make_move_heap σ bAddrs base player s e).1
        (make_move_heap σ bAddrs base player s e).2
      = (make_move_core (readBoard σ bAddrs) player s e).1 := by
  refine ⟨?_, ?_, ?_⟩
  · intro a ha
    have hab : a < base := hfresh a ha
    have hW : ∀ (σ0 : Store) (r0 c0 : Int) (v0 : Nat),
        heapWrite σ0 base r0 c0 v0 a = σ0 a :=
      fun σ0 r0 c0 v0 => heapWrite_untouched σ0 base r0 c0 v0 a hab
    have hRC : ∀ (σ0 : Store) (cap : Option Pos),
        heapRemoveCaptured σ0 base cap a = σ0 a :=
      fun σ0 cap => heapRemoveCaptured_untouched σ0 base cap a hab
    have hC : copyStore σ bAddrs base a = σ a := copyStore_untouched σ bAddrs base a hab
    unfold make_move_heap
    dsimp only
    split_ifs <;> simp only [hW, hRC, hC]
  · intro a ha
    have hab : a < base := hfresh a ha
    have hT : (make_move_heap σ bAddrs base player s e).2
        = List.range' base bAddrs.length := rfl
    rw [hT]
    intro hmem
    have := List.mem_range'_1.mp hmem
    omega
  · unfold make_move_heap make_move_core moveBoardAfter moveCaptured moveIsJump moveDr moveDc
    dsimp only
    simp only [apply_ite (fun σ0 => readBoard σ0 (List.range' base bAddrs.length)),
      readBoard_heapWrite, readBoard_heapRemoveCaptured, readBoard_copy]

/-- A concrete heap: addresses 0..7 hold the rows of `pawnCaptureBoard`,
all other addresses hold an empty list. -/
def witnessStore : Store := fun a => (pawnCaptureBoard[a]?).getD []

/-- Witness for claim C9: running the capture move `(5,2) -> (3,4)` on the
heap (board rows at addresses 0..7, copy allocated at base 100) leaves the
caller's row 4 - the row holding the captured black pawn - unchanged, and
the returned board equals the functional `make_move_core` result. -/
theorem C9_witness :
    (make_move_heap witnessStore [0, 1, 2, 3, 4, 5, 6, 7] 100 1 (5, 2) (3, 4)).1 4
        = witnessStore 4
    ∧ readBoard (make_move_heap witnessStore [0, 1, 2, 3, 4, 5, 6, 7] 100 1 (5, 2) (3, 4)).1
        (make_move_heap witnessStore [0, 1, 2, 3, 4, 5, 6, 7] 100 1 (5, 2) (3, 4)).2
      = (make_move_core pawnCaptureBoard 1 (5, 2) (3, 4)).1 := by
  have h := C9_make_move_no_mutation witnessStore [0, 1, 2, 3, 4, 5, 6, 7] 100 1
    (5, 2) (3, 4) (by decide)
  refine ⟨h.1 4 (by decide), ?_⟩
  rw [h.2.2]
  have hrb : readBoard witnessStore [0, 1, 2, 3, 4, 5, 6, 7] = pawnCaptureBoard := by
    decide
  rw [hrb]

theorem EInt.ninf_le (a : EInt) : EInt.ninf ≤ a := by cases a <;> rfl

theorem EInt.le_pinf (a : EInt) : a ≤ EInt.pinf := by cases a <;> rfl

theorem EInt.ninf_lt_pinf : (EInt.ninf : EInt) < EInt.pinf := by decide

theorem foldl_max_init : ∀ (l : List EInt) (a : EInt),
    l.foldl max a = max a (l.foldl max EInt.ninf)
  | [], a => by
    simp only [List.foldl_nil]
    rw [max_eq_left (EInt.ninf_le a)]
  | x :: l, a => by
    simp only [List.foldl_cons]
    rw [foldl_max_init l (max a x), foldl_max_init l (max EInt.ninf x),
        max_eq_right (EInt.ninf_le x), max_assoc]

theorem foldl_min_init : ∀ (l : List EInt) (a : EInt),
    l.foldl min a = min a (l.foldl min EInt.pinf)
  | [], a => by
    simp only [List.foldl_nil]
    rw [min_eq_left (EInt.le_pinf a)]
  | x :: l, a => by
    simp only [List.foldl_cons]
    rw [foldl_min_init l (min a x), foldl_min_init l (min EInt.pinf x),
        min_eq_right (EInt.le_pinf x), min_assoc]

theorem le_foldl_max : ∀ (l : List EInt) (x : EInt), x ∈ l →
    x ≤ l.foldl max EInt.ninf
  | [], x, hx => absurd hx (List.not_mem_nil x)
  | y :: l, x, hx => by
    rw [List.foldl_cons, foldl_max_init l (max EInt.ninf y),
        max_eq_right (EInt.ninf_le y)]
    rcases List.mem_cons.mp hx with h | h
    · rw [h]; exact le_max_left _ _
    · exact le_trans (le_foldl_max l x h) (le_max_right _ _)

theorem foldl_min_le : ∀ (l : List EInt) (x : EInt), x ∈ l →
    l.foldl min EInt.pinf ≤ x
  | [], x, hx => absurd hx (List.not_mem_nil x)
  | y :: l, x, hx => by
    rw [List.foldl_cons, foldl_min_init l (min EInt.pinf y),
        min_eq_right (EInt.le_pinf y)]
    rcases List.mem_cons.mp hx with h | h
    · rw [h]; exact min_le_left _ _
    · exact le_trans (min_le_right _ _) (foldl_min_le l x h)

/-- The maximizing alpha-beta loop over the flattened `(start, end)` pairs:
the same accumulation and cut-off as the nested loops, used to state their
joint behaviour. -/
def abFlatMax (f : Pos × Pos → EInt → EInt) (beta : EInt) :
    List (Pos × Pos) → EInt → EInt → EInt
  | [], m, _ => m
  | p :: ps, m, a =>
    let ev := f p a
    let m2 := max m ev
    let a2 := max a ev
    if beta ≤ a2 then m2 else abFlatMax f beta ps m2 a2

/-- The minimizing twin of `abFlatMax`. -/
def abFlatMin (f : Pos × Pos → EInt → EInt) (alpha : EInt) :
    List (Pos × Pos) → EInt → EInt → EInt
  | [], m, _ => m
  | p :: ps, m, bb =>
    let ev := f p bb
    let m2 := min m ev
    let b2 := min bb ev
    if b2 ≤ alpha then m2 else abFlatMin f alpha ps m2 b2

theorem abMaxInner_flat (f : Pos × Pos → EInt → EInt) (beta : EInt) (s : Pos) :
    ∀ (ends : List Pos) (rest : List (Pos × Pos)) (m a : EInt), ¬ beta ≤ a →
      abFlatMax f beta (ends.map (fun e => (s, e)) ++ rest) m a =
        (if beta ≤ (abMaxInner f beta s ends m a).2
         then (abMaxInner f beta s ends m a).1
         else abFlatMax f beta rest (abMaxInner f beta s ends m a).1
                (abMaxInner f beta s ends m a).2)
  | [], rest, m, a, h => by
    simp only [List.map_nil, List.nil_append, abMaxInner]
    rw [if_neg h]
  | e :: es, rest, m, a, h => by
    simp only [List.map_cons, List.cons_append]
    conv_lhs => unfold abFlatMax
    conv_rhs => unfold abMaxInner
    dsimp only
    by_cases h2 : beta ≤ max a (f (s, e) a)
    · rw [if_pos h2, if_pos h2]
      dsimp only
      rw [if_pos h2]
    · rw [if_neg h2, if_neg h2]
      exact abMaxInner_flat f beta s es rest (max m (f (s, e) a)) (max a (f (s, e) a)) h2

theorem abMinInner_flat (f : Pos × Pos → EInt → EInt) (alpha : EInt) (s : Pos) :
    ∀ (ends : List Pos) (rest : List (Pos × Pos)) (m bb : EInt), ¬ bb ≤ alpha →
      abFlatMin f alpha (ends.map (fun e => (s, e)) ++ rest) m bb =
        (if (abMinInner f alpha s ends m bb).2 ≤ alpha
         then (abMinInner f alpha s ends m bb).1
         else abFlatMin f alpha rest (abMinInner f alpha s ends m bb).1
                (abMinInner f alpha s ends m bb).2)
  | [], rest, m, bb, h => by
    simp only [List.map_nil, List.nil_append, abMinInner]
    rw [if_neg h]
  | e :: es, rest, m, bb, h => by
    simp only [List.map_cons, List.cons_append]
    conv_lhs => unfold abFlatMin
    conv_rhs => unfold abMinInner
    dsimp only
    by_cases h2 : min bb (f (s, e) bb) ≤ alpha
    · rw [if_pos h2, if_pos h2]
      dsimp only
      rw [if_pos h2]
    · rw [if_neg h2, if_neg h2]
      exact abMinInner_flat f alpha s es rest (min m (f (s, e) bb)) (min bb (f (s, e) bb)) h2

theorem abMaxOuter_flat (f : Pos × Pos → EInt → EInt) (beta : EInt) :
    ∀ (groups : List (Pos × List Pos)) (m a : EInt), ¬ beta ≤ a →
      abMaxOuter f beta groups m a = abFlatMax f beta (flattenMoves groups) m a
  | [], m, a, _ => rfl
  | g :: rest, m, a, h => by
    have hflat : flattenMoves (g :: rest) =
        g.2.map (fun e => (g.1, e)) ++ flattenMoves rest := by
      unfold flattenMoves
      rw [List.flatMap_cons]
    rw [hflat]
    conv_lhs => unfold abMaxOuter
    dsimp only
    rw [abMaxInner_flat f beta g.1 g.2 (flattenMoves rest) m a h]
    by_cases h2 : beta ≤ (abMaxInner f beta g.1 g.2 m a).2
    · rw [if_pos h2, if_pos h2]
    · rw [if_neg h2, if_neg h2]
      exact abMaxOuter_flat f beta rest _ _ h2

theorem abMinOuter_flat (f : Pos × Pos → EInt → EInt) (alpha : EInt) :
    ∀ (groups : List (Pos × List Pos)) (m bb : EInt), ¬ bb ≤ alpha →
      abMinOuter f alpha groups m bb = abFlatMin f alpha (flattenMoves groups) m bb
  | [], m, bb, _ => rfl
  | g :: rest, m, bb, h => by
    have hflat : flattenMoves (g :: rest) =
        g.2.map (fun e => (g.1, e)) ++ flattenMoves rest := by
      unfold flattenMoves
      rw [List.flatMap_cons]
    rw [hflat]
    conv_lhs => unfold abMinOuter
    dsimp only
    rw [abMinInner_flat f alpha g.1 g.2 (flattenMoves rest) m bb h]
    by_cases h2 : (abMinInner f alpha g.1 g.2 m bb).2 ≤ alpha
    · rw [if_pos h2, if_pos h2]
    · rw [if_neg h2, if_neg h2]
      exact abMinOuter_flat f alpha rest _ _ h2

theorem abFlatMax_le (f : Pos × Pos → EInt → EInt) (cv : Pos × Pos → EInt)
    (beta M : EInt) (hf : ∀ p a, a < beta → f p a ≤ max (cv p) a) :
    ∀ (ps : List (Pos × Pos)) (m a : EInt), a < beta → m ≤ M → a ≤ M →
      (∀ p ∈ ps, cv p ≤ M) → abFlatMax f beta ps m a ≤ M
  | [], _, _, _, hm, _, _ => hm
  | p :: ps, m, a, hab, hm, ha, hcv => by
    conv_lhs => unfold abFlatMax
    dsimp only
    have hev : f p a ≤ M :=
      le_trans (hf p a hab) (max_le (hcv p (List.mem_cons_self p ps)) ha)
    have hm2 : max m (f p a) ≤ M := max_le hm hev
    have ha2 : max a (f p a) ≤ M := max_le ha hev
    by_cases h2 : beta ≤ max a (f p a)
    · rw [if_pos h2]
      exact hm2
    · rw [if_neg h2]
      exact abFlatMax_le f cv beta M hf ps _ _ (not_le.mp h2) hm2 ha2
        (fun q hq => hcv q (List.mem_cons_of_mem p hq))

theorem le_abFlatMax (f : Pos × Pos → EInt → EInt) (cv : Pos × Pos → EInt)
    (beta L : EInt) (hf : ∀ p a, a < beta → min (cv p) beta ≤ f p a)
    (hL : L ≤ beta) :
    ∀ (ps : List (Pos × Pos)) (m a : EInt), a < beta →
      L ≤ max m ((ps.map cv).foldl max EInt.ninf) → L ≤ abFlatMax f beta ps m a
  | [], m, a, _, hLm => by
    simp only [abFlatMax]
    simpa [max_eq_left (EInt.ninf_le m)] using hLm
  | p :: ps, m, a, hab, hLm => by
    conv_rhs => unfold abFlatMax
    dsimp only
    have hfold : ((p :: ps).map cv).foldl max EInt.ninf =
        max (cv p) ((ps.map cv).foldl max EInt.ninf) := by
      rw [List.map_cons, List.foldl_cons,
          foldl_max_init (ps.map cv) (max EInt.ninf (cv p)),
          max_eq_right (EInt.ninf_le (cv p))]
    rw [hfold] at hLm
    by_cases h2 : beta ≤ max a (f p a)
    · rw [if_pos h2]
      rcases le_max_iff.mp h2 with hba | hbe
      · exact absurd hba (not_le.mpr hab)
      · exact le_trans (le_trans hL hbe) (le_max_right m _)
    · rw [if_neg h2]
      refine le_abFlatMax f cv beta L hf hL ps _ _ (not_le.mp h2) ?_
      rcases le_max_iff.mp hLm with hm | hrest
      · exact le_trans (le_trans hm (le_max_left m (f p a))) (le_max_left _ _)
      · rcases le_max_iff.mp hrest with hcvp | hF
        · have : L ≤ f p a := le_trans (le_min hcvp hL) (hf p a hab)
          exact le_trans (le_trans this (le_max_right m _)) (le_max_left _ _)
        · exact le_trans hF (le_max_right _ _)

theorem le_abFlatMin (f : Pos × Pos → EInt → EInt) (cv : Pos × Pos → EInt)
    (alpha M : EInt) (hf : ∀ p bb, alpha < bb → min (cv p) bb ≤ f p bb) :
    ∀ (ps : List (Pos × Pos)) (m bb : EInt), alpha < bb → M ≤ m → M ≤ bb →
      (∀ p ∈ ps, M ≤ cv p) → M ≤ abFlatMin f alpha ps m bb
  | [], _, _, _, hm, _, _ => hm
  | p :: ps, m, bb, hab, hm, hb, hcv => by
    conv_rhs => unfold abFlatMin
    dsimp only
    have hev : M ≤ f p bb :=
      le_trans (le_min (hcv p (List.mem_cons_self p ps)) hb) (hf p bb hab)
    have hm2 : M ≤ min m (f p bb) := le_min hm hev
    have hb2 : M ≤ min bb (f p bb) := le_min hb hev
    by_cases h2 : min bb (f p bb) ≤ alpha
    · rw [if_pos h2]
      exact hm2
    · rw [if_neg h2]
      exact le_abFlatMin f cv alpha M hf ps _ _ (not_le.mp h2) hm2 hb2
        (fun q hq => hcv q (List.mem_cons_of_mem p hq))

theorem abFlatMin_le (f : Pos × Pos → EInt → EInt) (cv : Pos × Pos → EInt)
    (alpha L : EInt) (hf : ∀ p bb, alpha < bb → f p bb ≤ max (cv p) alpha)
    (hL : alpha ≤ L) :
    ∀ (ps : List (Pos × Pos)) (m bb : EInt), alpha < bb →
      min m ((ps.map cv).foldl min EInt.pinf) ≤ L → abFlatMin f alpha ps m bb ≤ L
  | [], m, bb, _, hLm => by
    simp only [abFlatMin]
    simpa [min_eq_left (EInt.le_pinf m)] using hLm
  | p :: ps, m, bb, hab, hLm => by
    conv_lhs => unfold abFlatMin
    dsimp only
    have hfold : ((p :: ps).map cv).foldl min EInt.pinf =
        min (cv p) ((ps.map cv).foldl min EInt.pinf) := by
      rw [List.map_cons, List.foldl_cons,
          foldl_min_init (ps.map cv) (min EInt.pinf (cv p)),
          min_eq_right (EInt.le_pinf (cv p))]
    rw [hfold] at hLm
    by_cases h2 : min bb (f p bb) ≤ alpha
    · rw [if_pos h2]
      rcases min_le_iff.mp h2 with hba | hbe
      · exact absurd hba (not_le.mpr hab)
      · exact le_trans (min_le_right m _) (le_trans hbe hL)
    · rw [if_neg h2]
      refine abFlatMin_le f cv alpha L hf hL ps _ _ (not_le.mp h2) ?_
      rcases min_le_iff.mp hLm with hm | hrest
      · exact le_trans (min_le_left _ _) (le_trans (min_le_left m (f p bb)) hm)
      · rcases min_le_iff.mp hrest with hcvp | hF
        · have hev : f p bb ≤ L := le_trans (hf p bb hab) (max_le hcvp hL)
          exact le_trans (min_le_left _ _) (le_trans (min_le_right m _) hev)
        · exact le_trans (min_le_right _ _) hF

theorem minimax_bounds (sf : Option Pos) (ai : Nat) :
    ∀ (fuel : Nat) (b : Board) (depth : Nat) (maximizing : Bool)
      (forced : Option Pos) (alpha beta : EInt), alpha < beta →
      min (minimaxFull sf ai fuel b depth maximizing forced) beta
          ≤ minimaxAB sf ai fuel b depth maximizing alpha beta forced
      ∧ minimaxAB sf ai fuel b depth maximizing alpha beta forced
          ≤ max (minimaxFull sf ai fuel b depth maximizing forced) alpha := by
  intro fuel
  induction fuel with
  | zero =>
    intro b depth maximizing forced alpha beta hab
    exact ⟨min_le_left _ _, le_max_left _ _⟩
  | succ n ih =>
    intro b depth maximizing forced alpha beta hab
    cases maximizing with
    | true =>
      simp only [minimaxAB, minimaxFull, if_true]
      by_cases hterm : depth = 0 ∨ check_game_over b ai forced sf
      · rw [if_pos hterm, if_pos hterm]
        exact ⟨min_le_left _ _, le_max_left _ _⟩
      · rw [if_neg hterm, if_neg hterm]
        by_cases hdict : (get_all_possible_moves_for_player b ai forced sf).1 = []
        · rw [if_pos hdict, if_pos hdict]
          exact ⟨min_le_left _ _, le_max_left _ _⟩
        · rw [if_neg hdict, if_neg hdict]
          rw [abMaxOuter_flat _ beta _ EInt.ninf alpha (not_le.mpr hab)]
          have hf_lower : ∀ (p : Pos × Pos) (a : EInt), a < beta →
              min (fullChild b (minimaxFull sf ai n) depth true ai p) beta ≤
                abChild b (minimaxAB sf ai n) depth true ai p.1 p.2 a beta := by
            intro p a ha
            unfold abChild fullChild
            dsimp only
            split_ifs
            · exact (ih _ _ _ _ a beta ha).1
            · exact (ih _ _ _ _ a beta ha).1
          have hf_upper : ∀ (p : Pos × Pos) (a : EInt), a < beta →
              abChild b (minimaxAB sf ai n) depth true ai p.1 p.2 a beta ≤
                max (fullChild b (minimaxFull sf ai n) depth true ai p) a := by
            intro p a ha
            unfold abChild fullChild
            dsimp only
            split_ifs
            · exact (ih _ _ _ _ a beta ha).2
            · exact (ih _ _ _ _ a beta ha).2
          constructor
          · refine le_abFlatMax _ _ beta _ hf_lower (min_le_right _ _) _ EInt.ninf alpha hab ?_
            rw [max_eq_right (EInt.ninf_le _)]
            exact min_le_left _ _
          · refine abFlatMax_le _ _ beta _ hf_upper _ EInt.ninf alpha hab
              (EInt.ninf_le _) (le_max_right _ _) ?_
            intro p hp
            exact le_trans (le_foldl_max _ _ (List.mem_map_of_mem _ hp)) (le_max_left _ _)
    | false =>
      simp only [minimaxAB, minimaxFull, Bool.false_eq_true, if_false]
      by_cases hterm : depth = 0 ∨ check_game_over b (flipPlayer ai) forced sf
      · rw [if_pos hterm, if_pos hterm]
        exact ⟨min_le_left _ _, le_max_left _ _⟩
      · rw [if_neg hterm, if_neg hterm]
        by_cases hdict : (get_all_possible_moves_for_player b (flipPlayer ai) forced sf).1 = []
        · rw [if_pos hdict, if_pos hdict]
          exact ⟨min_le_left _ _, le_max_left _ _⟩
        · rw [if_neg hdict, if_neg hdict]
          rw [abMinOuter_flat _ alpha _ EInt.pinf beta (not_le.mpr hab)]
          have hf_lower : ∀ (p : Pos × Pos) (bb : EInt), alpha < bb →
              min (fullChild b (minimaxFull sf ai n) depth false (flipPlayer ai) p) bb ≤
                abChild b (minimaxAB sf ai n) depth false (flipPlayer ai) p.1 p.2 alpha bb := by
            intro p bb hb
            unfold abChild fullChild
            dsimp only
            split_ifs
            · exact (ih _ _ _ _ alpha bb hb).1
            · exact (ih _ _ _ _ alpha bb hb).1
          have hf_upper : ∀ (p : Pos × Pos) (bb : EInt), alpha < bb →
              abChild b (minimaxAB sf ai n) depth false (flipPlayer ai) p.1 p.2 alpha bb ≤
                max (fullChild b (minimaxFull sf ai n) depth false (flipPlayer ai) p) alpha := by
            intro p bb hb
            unfold abChild fullChild
            dsimp only
            split_ifs
            · exact (ih _ _ _ _ alpha bb hb).2
            · exact (ih _ _ _ _ alpha bb hb).2
          constructor
          · refine le_abFlatMin _ _ alpha _ hf_lower _ EInt.pinf beta hab
              (EInt.le_pinf _) (min_le_right _ _) ?_
            intro p hp
            exact le_trans (min_le_left _ _) (foldl_min_le _ _ (List.mem_map_of_mem _ hp))
          · refine abFlatMin_le _ _ alpha _ hf_upper (le_max_right _ _) _ EInt.pinf beta hab ?_
            rw [min_eq_right (EInt.le_pinf _)]
            exact le_max_left _ _

/-- Claim C4: for every board, depth, maximizing flag, AI player, forced
piece (and any ambient live forced piece and recursion fuel), `_minimax`
with alpha-beta pruning called with `alpha = -inf`, `beta = +inf` returns
exactly the score of the unpruned full minimax recursion over the same game
tree (same move enumeration, same child recursion, same terminal
evaluation). -/
theorem C4_alphabeta_equals_full_minimax (sf : Option Pos) (ai : Nat)
    (fuel : Nat) (b : Board) (depth : Nat) (maximizing : Bool)
    (forced : Option Pos) :
    minimaxAB sf ai fuel b depth maximizing EInt.ninf EInt.pinf forced =
      minimaxFull sf ai fuel b depth maximizing forced := by
  have h := minimax_bounds sf ai fuel b depth maximizing forced EInt.ninf EInt.pinf
    EInt.ninf_lt_pinf
  have h1 := h.1
  have h2 := h.2
  rw [min_eq_left (EInt.le_pinf _)] at h1
  rw [max_eq_left (EInt.ninf_le _)] at h2
  exact le_antisymm h2 h1
